import Mathlib

/-!
# Drawing primitives and canvas geometry of the Wesnoth GUI layer

A shallow embedding of `src/draw.cpp` (namespace `draw`) and of the geometry of
`src/gui/core/canvas.cpp` (namespace `gui2`).

Conventions of the embedding.

* A C++ `int` is a Lean `Int`.  Signed arithmetic is exact: signed overflow is undefined
  behaviour in C++, so the embedding describes the executions in which it does not occur.
* A C++ `unsigned` is a Lean `Nat` below `2 ^ 32`; every conversion between `int` and
  `unsigned`, and every operation carried out in `unsigned`, is reduced modulo `2 ^ 32`
  explicitly (`to_unsigned`, `to_int`).
* The functions of namespace `draw` reach the screen through a handful of primitive calls;
  a run of drawing code is embedded as the list of primitive calls it issues
  (`draw_call`), in order.
* Renderer state (the clip rectangle) is passed explicitly as a `CVideo` value.
* A failed `VALIDATE` throws; a function that can throw returns an `Except` whose error is
  the message of the exception.
* A loop that need not terminate takes fuel and returns an `Option`, `none` when the fuel
  runs out.
-/

/-! ## Machine integers -/

/-- Conversion of a C++ `int` to `unsigned`: reduction modulo `2 ^ 32`. -/
def to_unsigned (i : Int) : Nat := (i % 2 ^ 32).toNat

/-- Conversion of a C++ `unsigned` to `int`: the representative of the value modulo
`2 ^ 32` in the range of `int`. -/
def to_int (u : Nat) : Int :=
  if u % 2 ^ 32 < 2 ^ 31 then ((u % 2 ^ 32 : Nat) : Int) else ((u % 2 ^ 32 : Nat) : Int) - 2 ^ 32

/-- The values a C++ `int` can hold. -/
def is_int (i : Int) : Prop := -2 ^ 31 ≤ i ∧ i < 2 ^ 31

instance (i : Int) : Decidable (is_int i) := by
  unfold is_int; exact inferInstance

/-- The compound assignment `a -= u` for `int a` and `unsigned u`: both operands are
converted to `unsigned`, the difference is taken modulo `2 ^ 32` and converted back. -/
def int_sub_unsigned (a : Int) (u : Nat) : Int := to_int (to_unsigned (a - (u : Int)))

/-! ## SDL data types -/

/-- The SDL point: two `int` coordinates. -/
structure SDL_Point where
  x : Int
  y : Int
deriving DecidableEq

/-- The SDL rectangle: position of the top-left pixel, width and height. -/
structure SDL_Rect where
  x : Int
  y : Int
  w : Int
  h : Int
deriving DecidableEq

/-- The pixel `(px, py)` belongs to the rectangle `r`. -/
def SDL_Rect.contains (r : SDL_Rect) (px py : Int) : Prop :=
  r.x ≤ px ∧ px < r.x + r.w ∧ r.y ≤ py ∧ py < r.y + r.h

instance (r : SDL_Rect) (px py : Int) : Decidable (r.contains px py) := by
  unfold SDL_Rect.contains; exact inferInstance

/-- All four members of the rectangle are values of `int`. -/
def SDL_Rect.in_int_range (r : SDL_Rect) : Prop :=
  is_int r.x ∧ is_int r.y ∧ is_int r.w ∧ is_int r.h

instance (r : SDL_Rect) : Decidable r.in_int_range := by
  unfold SDL_Rect.in_int_range; exact inferInstance

/-- Modelled from the spec: `color_t` (color.hpp) is not under src/; a colour is its four
channels. -/
structure color_t where
  r : Nat
  g : Nat
  b : Nat
  a : Nat
deriving DecidableEq

/-- Modelled from the spec: `color_t::null_color` (color.hpp) is not under src/; the null
colour has all four channels zero. -/
def color_t.null_color : color_t := ⟨0, 0, 0, 0⟩

/-- Modelled from the spec: `color_t::null` (color.hpp) is not under src/; a colour is null
when it equals the null colour. -/
def color_t.null (c : color_t) : Bool := decide (c = color_t.null_color)

/-- Modelled from the spec: the `texture` class (sdl/texture.hpp) is not under src/; a texture
is a possibly null handle together with the size reported by `w()` and `h()`. -/
structure texture where
  handle : Option Nat
  w : Int
  h : Int
deriving DecidableEq

/-- The null test `!tex`. -/
def texture.is_null (tex : texture) : Bool := tex.handle.isNone

namespace sdl

/-- Modelled from the spec: `sdl::empty_rect` (sdl/rect.hpp) is not under src/; it is the
all-zero rectangle. -/
def empty_rect : SDL_Rect := ⟨0, 0, 0, 0⟩

/-- Modelled from the spec: `sdl::create_rect` (sdl/rect.hpp) is not under src/; it builds a
rectangle from four `int` arguments. -/
def create_rect (x y w h : Int) : SDL_Rect := ⟨x, y, w, h⟩

end sdl

/-- Modelled from the spec: `SDL_RectEmpty` belongs to the SDL library, which is not under
src/; a rectangle with non-positive width or height has no pixel. -/
def SDL_RectEmpty (r : SDL_Rect) : Bool := decide (r.w ≤ 0) || decide (r.h ≤ 0)

/-- Modelled from the spec: `SDL_IntersectRect` belongs to the SDL library, which is not
under src/.  It returns false when either rectangle is empty or when the two do not
overlap, and otherwise stores the intersection in its out-parameter; the callers read the
out-parameter only after a true return, so the result is an `Option`.  The interval
arithmetic is the library's: the larger of the two minima, the smaller of the two maxima. -/
def SDL_IntersectRect (A B : SDL_Rect) : Option SDL_Rect :=
  if SDL_RectEmpty A || SDL_RectEmpty B then none
  else
    -- horizontal intersection
    let Amin := A.x
    let Amax := Amin + A.w
    let Bmin := B.x
    let Bmax := Bmin + B.w
    let Amin := if Bmin > Amin then Bmin else Amin
    let rx := Amin
    let Amax := if Bmax < Amax then Bmax else Amax
    let rw := Amax - Amin
    -- vertical intersection
    let Amin := A.y
    let Amax := Amin + A.h
    let Bmin := B.y
    let Bmax := Bmin + B.h
    let Amin := if Bmin > Amin then Bmin else Amin
    let ry := Amin
    let Amax := if Bmax < Amax then Bmax else Amax
    let rh := Amax - Amin
    let result : SDL_Rect := ⟨rx, ry, rw, rh⟩
    if SDL_RectEmpty result then none else some result

namespace sdl

/-- Modelled from the spec: `sdl::intersect_rects` (sdl/rect.cpp) is not under src/; it is
the intersection of two rectangles, the all-zero rectangle when they share no pixel. -/
def intersect_rects (rect1 rect2 : SDL_Rect) : SDL_Rect :=
  match SDL_IntersectRect rect1 rect2 with
  | some res => res
  | none => empty_rect

end sdl

/-! ## Renderer state -/

/-- Modelled from the spec: the `SDL_Renderer` belongs to the SDL library, which is not under
src/; the only part of its state read back by `draw.cpp` that the claims speak of is the
clip rectangle. -/
structure SDL_Renderer where
  clip_rect : SDL_Rect
deriving DecidableEq

/-- Modelled from the spec: `SDL_RenderSetClipRect` belongs to the SDL library, which is not
under src/; it stores the clip rectangle in the renderer. -/
def SDL_RenderSetClipRect (renderer : SDL_Renderer) (rect : SDL_Rect) : SDL_Renderer :=
  { renderer with clip_rect := rect }

/-- Modelled from the spec: `SDL_RenderGetClipRect` belongs to the SDL library, which is not
under src/; it reads back the clip rectangle last stored, the all-zero rectangle when none
is set. -/
def SDL_RenderGetClipRect (renderer : SDL_Renderer) : SDL_Rect := renderer.clip_rect

/-- Modelled from the spec: the `CVideo` singleton (video.hpp) is not under src/; `draw.cpp`
and `canvas.cpp` use its renderer, which may be null, and its draw area. -/
structure CVideo where
  get_renderer : Option SDL_Renderer
  draw_area : SDL_Rect
deriving DecidableEq

/-! ## Namespace `draw` -/

/-- The primitive calls of namespace `draw` through which all drawing reaches the renderer,
and the composite calls (`circle`, `disc`, `tiled`, `tiled_highres`) as they are issued by
`canvas.cpp`. -/
inductive draw_call where
  | set_color (c : color_t)
  | fill (area : SDL_Rect)
  | rect (r : SDL_Rect)
  | line (from_x from_y to_x to_y : Int)
  | points (pts : List SDL_Point)
  | blit (tex : texture) (dst : SDL_Rect) (src : Option SDL_Rect)
  | flipped (tex : texture) (dst : SDL_Rect) (flip_h flip_v : Bool)
  | circle (cx cy r : Int) (octants : Nat)
  | disc (cx cy r : Int) (octants : Nat)
  | tiled (tex : texture) (dst : SDL_Rect) (centered mirrored : Bool)
  | tiled_highres (tex : texture) (dst : SDL_Rect) (centered mirrored : Bool)
deriving DecidableEq

/-- The pixel `(px, py)` lies on the axis-parallel segment from `(x1, y1)` to `(x2, y2)`,
both endpoints included, in either direction. -/
def on_segment (x1 y1 x2 y2 px py : Int) : Prop :=
  min x1 x2 ≤ px ∧ px ≤ max x1 x2 ∧ min y1 y2 ≤ py ∧ py ≤ max y1 y2

instance (x1 y1 x2 y2 px py : Int) : Decidable (on_segment x1 y1 x2 y2 px py) := by
  unfold on_segment; exact inferInstance

namespace draw

/-- The statement `if(c) points.push_back(p);`. -/
def push_back_if (c : Bool) (points : List SDL_Point) (p : SDL_Point) : List SDL_Point :=
  if c then points ++ [p] else points

/-- The loop of `draw::circle`, from the state `(d, x, y)` with the points collected so
far.  It terminates because `x - y` decreases in every round. -/
def circle_loop (cx cy : Int) (octants : Nat) (d x y : Int)
    (points : List SDL_Point) : List SDL_Point :=
  if ¬ (y > x) then
    let points := push_back_if (octants &&& 0x04 != 0) points ⟨cx + x, cy + y⟩
    let points := push_back_if (octants &&& 0x02 != 0) points ⟨cx + x, cy - y⟩
    let points := push_back_if (octants &&& 0x20 != 0) points ⟨cx - x, cy + y⟩
    let points := push_back_if (octants &&& 0x40 != 0) points ⟨cx - x, cy - y⟩
    let points := push_back_if (octants &&& 0x08 != 0) points ⟨cx + y, cy + x⟩
    let points := push_back_if (octants &&& 0x01 != 0) points ⟨cx + y, cy - x⟩
    let points := push_back_if (octants &&& 0x10 != 0) points ⟨cx - y, cy + x⟩
    let points := push_back_if (octants &&& 0x80 != 0) points ⟨cx - y, cy - x⟩
    let d := d + (2 * y + 1)
    let y := y + 1
    if d > 0 then
      circle_loop cx cy octants (d + (-2 * x + 2)) (x - 1) y points
    else
      circle_loop cx cy octants d x y points
  else
    points
termination_by (x - y + 1).toNat
decreasing_by all_goals omega

/-- The function `draw::circle(cx, cy, r, octants)`: the points collected by the loop are
handed to `draw::points` in one call. -/
def circle (cx cy r : Int) (octants : Nat) : List draw_call :=
  let d := -r
  let x := r
  let y := 0
  [draw_call.points (circle_loop cx cy octants d x y [])]

/-- The statement `if(c) draw::line(x1, y1, x2, y2);`. -/
def line_if (c : Bool) (calls : List draw_call) (x1 y1 x2 y2 : Int) : List draw_call :=
  if c then calls ++ [draw_call.line x1 y1 x2 y2] else calls

/-- The loop of `draw::disc`, from the state `(d, x, y)` with the calls issued so far. -/
def disc_loop (cx cy : Int) (octants : Nat) (d x y : Int)
    (calls : List draw_call) : List draw_call :=
  if ¬ (y > x) then
    let calls := line_if (octants &&& 0x04 != 0) calls (cx + x) (cy + y + 1) (cx + y + 1) (cy + y + 1)
    let calls := line_if (octants &&& 0x02 != 0) calls (cx + x) (cy - y) (cx + y + 1) (cy - y)
    let calls := line_if (octants &&& 0x20 != 0) calls (cx - x - 1) (cy + y + 1) (cx - y - 2) (cy + y + 1)
    let calls := line_if (octants &&& 0x40 != 0) calls (cx - x - 1) (cy - y) (cx - y - 2) (cy - y)
    let calls := line_if (octants &&& 0x08 != 0) calls (cx + y) (cy + x + 1) (cx + y) (cy + y + 1)
    let calls := line_if (octants &&& 0x01 != 0) calls (cx + y) (cy - x) (cx + y) (cy - y)
    let calls := line_if (octants &&& 0x10 != 0) calls (cx - y - 1) (cy + x + 1) (cx - y - 1) (cy + y + 1)
    let calls := line_if (octants &&& 0x80 != 0) calls (cx - y - 1) (cy - x) (cx - y - 1) (cy - y)
    let d := d + (2 * y + 1)
    let y := y + 1
    if d > 0 then
      disc_loop cx cy octants (d + (-2 * x + 2)) (x - 1) y calls
    else
      disc_loop cx cy octants d x y calls
  else
    calls
termination_by (x - y + 1).toNat
decreasing_by all_goals omega

/-- The function `draw::disc(cx, cy, r, octants)`: the calls to `draw::line` it issues. -/
def disc (cx cy r : Int) (octants : Nat) : List draw_call :=
  let d := -r
  let x := r
  let y := 0
  disc_loop cx cy octants d x y []

/-- The function `draw::get_clip`. -/
def get_clip (video : CVideo) : SDL_Rect :=
  match video.get_renderer with
  | none => sdl.empty_rect
  | some renderer =>
    let clip := SDL_RenderGetClipRect renderer
    if clip = sdl.empty_rect then video.draw_area else clip

/-- The function `draw::force_clip`: nothing happens without a renderer. -/
def force_clip (video : CVideo) (clip : SDL_Rect) : CVideo :=
  match video.get_renderer with
  | none => video
  | some renderer => { video with get_renderer := some (SDL_RenderSetClipRect renderer clip) }

/-- The class `draw::clip_setter`: it remembers the clip found at construction. -/
structure clip_setter where
  c_ : SDL_Rect
deriving DecidableEq

/-- The constructor `clip_setter::clip_setter(clip)`: the new object and the renderer state
it leaves. -/
def clip_setter.construct (video : CVideo) (clip : SDL_Rect) : clip_setter × CVideo :=
  let c_ := get_clip video
  (⟨c_⟩, force_clip video clip)

/-- The destructor of `clip_setter`. -/
def clip_setter.destroy (self : clip_setter) (video : CVideo) : CVideo :=
  force_clip video self.c_

/-- The function `draw::set_clip`. -/
def set_clip (video : CVideo) (clip : SDL_Rect) : clip_setter × CVideo :=
  clip_setter.construct video clip

/-- The function `draw::reduce_clip`. -/
def reduce_clip (video : CVideo) (clip : SDL_Rect) : clip_setter × CVideo :=
  let c := get_clip video
  if c = sdl.empty_rect then
    clip_setter.construct video clip
  else
    clip_setter.construct video (sdl.intersect_rects clip c)

/-- The inner loop of `draw::tiled`: one row of tiles, from the tile `t`, up to the right
edge `xend = dst.x + dst.w`.  One unit of fuel is spent per test of the loop condition;
`none` means the fuel ran out. -/
def tiled_row (fuel : Nat) (tex : texture) (mirrored : Bool) (xend : Int) (vf : Bool)
    (t : SDL_Rect) (hf : Bool) (calls : List draw_call) : Option (SDL_Rect × List draw_call) :=
  match fuel with
  | 0 => none
  | fuel + 1 =>
    if t.x < xend then
      let calls :=
        if mirrored then calls ++ [draw_call.flipped tex t hf vf]
        else calls ++ [draw_call.blit tex t none]
      tiled_row fuel tex mirrored xend vf { t with x := t.x + t.w } (!hf) calls
    else
      some (t, calls)

/-- The outer loop of `draw::tiled`: the rows, from the tile `t`, down to the bottom edge of
`dst`.  One unit of fuel is spent per test of the loop condition. -/
def tiled_rows (fuel : Nat) (tex : texture) (mirrored : Bool) (dst : SDL_Rect) (xoff : Int)
    (t : SDL_Rect) (vf : Bool) (calls : List draw_call) : Option (List draw_call) :=
  match fuel with
  | 0 => none
  | fuel + 1 =>
    if t.y < dst.y + dst.h then
      let hf := false
      match tiled_row fuel tex mirrored (dst.x + dst.w) vf { t with x := dst.x - xoff } hf calls with
      | none => none
      | some (t, calls) =>
        tiled_rows fuel tex mirrored dst xoff { t with y := t.y + t.h } (!vf) calls
    else
      some calls

/-- The function `draw::tiled(tex, dst, centered, mirrored)`: the renderer state it leaves
and the blits it issues; `none` means the fuel ran out.  The division is the truncating
division of C++. -/
def tiled (fuel : Nat) (video : CVideo) (tex : texture) (dst : SDL_Rect)
    (centered mirrored : Bool) : Option (CVideo × List draw_call) :=
  if tex.is_null then some (video, [])
  else
    -- Reduce clip to dst.
    let (clipper, video) := reduce_clip video dst
    let xoff := if centered then (dst.w - tex.w).tdiv 2 else 0
    let yoff := if centered then (dst.h - tex.h).tdiv 2 else 0
    -- Just blit the image however many times is necessary.
    let vf := false
    let t : SDL_Rect := ⟨dst.x - xoff, dst.y - yoff, tex.w, tex.h⟩
    match tiled_rows fuel tex mirrored dst xoff t vf [] with
    | none => none
    | some calls => some (clipper.destroy video, calls)

end draw

namespace draw

/-- The points handed to `draw::points` by `draw::circle(cx, cy, r, octants)`. -/
def circle_points (cx cy r : Int) (octants : Nat) : List SDL_Point :=
  circle_loop cx cy octants (-r) r 0 []

/-- The states `(x, y)` in which the loop of `draw::circle` runs its body, in order, from
the state `(d, x, y)`: the control flow of `circle_loop` without the plotting. -/
def circle_states (d x y : Int) : List (Int × Int) :=
  if ¬ (y > x) then
    (x, y) ::
      (let d := d + (2 * y + 1)
       let y := y + 1
       if d > 0 then circle_states (d + (-2 * x + 2)) (x - 1) y
       else circle_states d x y)
  else
    []
termination_by (x - y + 1).toNat
decreasing_by all_goals omega

/-- The points that one round of the loop of `draw::circle` collects in the state `(x, y)`,
in the order of the eight `push_back` statements. -/
def octant_points (cx cy : Int) (octants : Nat) (x y : Int) : List SDL_Point :=
  (if octants &&& 0x04 != 0 then [(⟨cx + x, cy + y⟩ : SDL_Point)] else []) ++
  (if octants &&& 0x02 != 0 then [(⟨cx + x, cy - y⟩ : SDL_Point)] else []) ++
  (if octants &&& 0x20 != 0 then [(⟨cx - x, cy + y⟩ : SDL_Point)] else []) ++
  (if octants &&& 0x40 != 0 then [(⟨cx - x, cy - y⟩ : SDL_Point)] else []) ++
  (if octants &&& 0x08 != 0 then [(⟨cx + y, cy + x⟩ : SDL_Point)] else []) ++
  (if octants &&& 0x01 != 0 then [(⟨cx + y, cy - x⟩ : SDL_Point)] else []) ++
  (if octants &&& 0x10 != 0 then [(⟨cx - y, cy + x⟩ : SDL_Point)] else []) ++
  (if octants &&& 0x80 != 0 then [(⟨cx - y, cy - x⟩ : SDL_Point)] else [])

end draw

/-- Modelled from the spec: the enumeration `SDL_RendererFlip` belongs to the SDL library,
which is not under src/; its values are bit flags. -/
def SDL_FLIP_NONE : Nat := 0

/-- Modelled from the spec: the horizontal flag of `SDL_RendererFlip`. -/
def SDL_FLIP_HORIZONTAL : Nat := 1

/-- Modelled from the spec: the vertical flag of `SDL_RendererFlip`. -/
def SDL_FLIP_VERTICAL : Nat := 2

namespace draw

/-- The function `get_flip` of `draw.cpp`: the flags that `draw::flipped` hands to the
renderer. -/
def get_flip (flip_h flip_v : Bool) : Nat :=
  (if flip_h then SDL_FLIP_HORIZONTAL else SDL_FLIP_NONE)
    ||| (if flip_v then SDL_FLIP_VERTICAL else SDL_FLIP_NONE)

/-- The number of tiles of the spec along one axis: `ceil(extent / size)` tiles of length
`size` to cover `extent` pixels, none when `extent ≤ 0`. -/
def spec_tile_count (extent size : Int) : Nat :=
  if extent ≤ 0 then 0 else ((extent + size - 1) / size).toNat

/-- The tiling of the spec: `rows` rows of `cols` tiles in row-major order from the corner
`(x0, y0)`, the tile in column `i` and row `j` being `{x0 + i*tw, y0 + j*th, tw, th}`; in
mirrored mode it is flipped horizontally when `i` is odd and vertically when `j` is odd,
otherwise it is a plain blit. -/
def spec_tile_grid (tex : texture) (mirrored : Bool) (x0 y0 : Int) (cols rows : Nat) :
    List draw_call :=
  (List.range rows).flatMap fun (j : Nat) =>
    (List.range cols).map fun (i : Nat) =>
      let t : SDL_Rect := ⟨x0 + i * tex.w, y0 + j * tex.h, tex.w, tex.h⟩
      if mirrored then draw_call.flipped tex t (decide (i % 2 = 1)) (decide (j % 2 = 1))
      else draw_call.blit tex t none

end draw

/-! ## Namespace `gui2`: the canvas -/

namespace gui2

/-- Modelled from the spec: `typed_formula<T>` (gui/auxiliary/typed_formula.hpp) is not under
src/ and the formula evaluator is an external collaborator; a formula is the value it
yields for given variables. -/
abbrev typed_formula (V T : Type) := V → T

/-- The result of `rect_bounded_shape::calculate_rects` (declared in canvas_private.hpp),
with its members in the order of the two `return` statements. -/
structure calculated_rects where
  empty : Bool
  dst_on_widget : SDL_Rect
  clip_on_widget : SDL_Rect
  clip_in_shape : SDL_Rect
  unclipped_around_viewport : SDL_Rect
  dst_in_viewport : SDL_Rect
deriving DecidableEq

/-- The class `rect_bounded_shape`: four `unsigned` formulas. -/
structure rect_bounded_shape (V : Type) where
  x_ : typed_formula V Nat
  y_ : typed_formula V Nat
  w_ : typed_formula V Nat
  h_ : typed_formula V Nat

/-- The function `rect_bounded_shape::calculate_rects`. -/
def rect_bounded_shape.calculate_rects {V : Type} (self : rect_bounded_shape V)
    (view_bounds : SDL_Rect) (vars : V) : calculated_rects :=
  let x : Nat := self.x_ vars % 2 ^ 32
  let y : Nat := self.y_ vars % 2 ^ 32
  let w : Nat := self.w_ vars % 2 ^ 32
  let h : Nat := self.h_ vars % 2 ^ 32
  let dst_on_widget := sdl.create_rect (to_int x) (to_int y) (to_int w) (to_int h)
  match SDL_IntersectRect dst_on_widget view_bounds with
  | none =>
    ⟨true, dst_on_widget, ⟨0, 0, 0, 0⟩, ⟨0, 0, 0, 0⟩, ⟨0, 0, 0, 0⟩, ⟨0, 0, 0, 0⟩⟩
  | some clip_on_widget =>
    let unclipped_around_viewport : SDL_Rect :=
      { dst_on_widget with
        x := dst_on_widget.x - view_bounds.x
        y := dst_on_widget.y - view_bounds.y }
    let clip_in_shape : SDL_Rect :=
      { clip_on_widget with
        x := int_sub_unsigned clip_on_widget.x x
        y := int_sub_unsigned clip_on_widget.y y }
    let dst_in_viewport : SDL_Rect :=
      { clip_on_widget with
        x := clip_on_widget.x - view_bounds.x
        y := clip_on_widget.y - view_bounds.y }
    ⟨false, dst_on_widget, clip_on_widget, clip_in_shape, unclipped_around_viewport,
      dst_in_viewport⟩

/-- The abstract class `shape`: its virtual member `draw(portion_to_draw, draw_location,
variables)`, which may change the variables and issues drawing calls, or raises (a failed
`VALIDATE` is an error carrying its message). -/
structure shape (V : Type) where
  draw : SDL_Rect → SDL_Rect → V → Except String (V × List draw_call)

/-- The class `rectangle_shape`, after construction. -/
structure rectangle_shape (V : Type) extends rect_bounded_shape V where
  border_thickness_ : Int
  border_color_ : typed_formula V color_t
  fill_color_ : typed_formula V color_t

/-- The function `rectangle_shape::draw`. -/
def rectangle_shape.draw {V : Type} (self : rectangle_shape V)
    (portion_to_draw draw_location : SDL_Rect) (vars : V) : V × List draw_call :=
  let rects := self.calculate_rects portion_to_draw vars
  if rects.empty then (vars, [])
  else
    let fill_color := self.fill_color_ vars
    let border_color := self.border_color_ vars
    let r := rects.unclipped_around_viewport
    let r : SDL_Rect := { r with x := r.x + draw_location.x, y := r.y + draw_location.y }
    -- Fill the background, if applicable
    let calls :=
      if !fill_color.null then
        let area : SDL_Rect :=
          { x := r.x + self.border_thickness_
            y := r.y + self.border_thickness_
            w := r.w - 2 * self.border_thickness_
            h := r.h - 2 * self.border_thickness_ }
        [draw_call.set_color fill_color, draw_call.fill area]
      else []
    -- Draw the border
    let calls := calls ++ [draw_call.set_color border_color]
    let calls := calls ++ (List.range self.border_thickness_.toNat).map fun (i : Nat) =>
      let dimensions : SDL_Rect :=
        { x := r.x + i
          y := r.y + i
          w := r.w - 2 * i
          h := r.h - 2 * i }
      draw_call.rect dimensions
    (vars, calls)

/-- A rectangle shape seen through the base class `shape`; its `draw` never raises. -/
def rectangle_shape.to_shape {V : Type} (self : rectangle_shape V) : shape V :=
  ⟨fun portion_to_draw draw_location vars => .ok (self.draw portion_to_draw draw_location vars)⟩

/-- The enumeration `image_shape::resize_mode` (declared in canvas_private.hpp), with the
enumerators named in `image_shape::draw` and `image_shape::get_resize_mode`. -/
inductive resize_mode where
  | scale
  | scale_sharp
  | stretch
  | tile
  | tile_center
  | tile_highres
deriving DecidableEq

/-- The function `image_shape::get_resize_mode`. -/
def image_shape.get_resize_mode (resize_mode : String) : gui2.resize_mode :=
  if resize_mode = "tile" then
    .tile
  else if resize_mode = "tile_center" then
    .tile_center
  else if resize_mode = "tile_highres" then
    .tile_highres
  else if resize_mode = "stretch" then
    .stretch
  else if resize_mode = "scale_sharp" then
    .scale_sharp
  else
    -- an unknown non-empty name other than "scale" is only logged
    .scale

/-- Modelled from the spec: `image::scale_quality` (picture.hpp) is not under src/; the two
texture filtering modes named in `image_shape::draw`. -/
inductive scale_quality where
  | nearest
  | linear
deriving DecidableEq

/-- Modelled from the spec: `wfl::variant` belongs to the formula evaluator, which is not
under src/; a variant is recorded as the C++ value it was constructed from. -/
inductive variant where
  | of_int (n : Int)
  | of_unsigned (n : Nat)
deriving DecidableEq

/-- Modelled from the spec: `wfl::map_formula_callable` belongs to the formula evaluator,
which is not under src/; the variables are the bindings added so far, the latest first. -/
abbrev map_formula_callable := List (String × variant)

/-- Modelled from the spec: `map_formula_callable::add` is not under src/; it binds a name to
a value. -/
def map_formula_callable.add (self : map_formula_callable) (key : String) (value : variant) :
    map_formula_callable :=
  (key, value) :: self

/-- The class `image_shape`, after construction.  The members `src_clip_` and `image_` are
left out: `draw` writes `src_clip_` and nothing reads either.  The actions formula is the
change that executing it against the local variables makes to the variables. -/
structure image_shape where
  x_ : typed_formula map_formula_callable Nat
  y_ : typed_formula map_formula_callable Nat
  w_ : typed_formula map_formula_callable Nat
  h_ : typed_formula map_formula_callable Nat
  image_name_ : typed_formula map_formula_callable String
  resize_mode_ : resize_mode
  mirror_ : typed_formula map_formula_callable Bool
  actions_formula_ : map_formula_callable → map_formula_callable → map_formula_callable

/-- The function `image_shape::dimension_validation(value, name, key)`. -/
def image_shape.dimension_validation (value : Nat) (_name _key : String) : Except String Unit :=
  let as_int := to_int value
  if as_int ≥ 0 then .ok () else .error "Image doesn't fit on canvas."

/-- The function `image_shape::draw`.  The texture cache `image::get_texture` is not under
src/ and is a parameter; `draw::flipped(tex, dst)` is called with the default flags of its
declaration, a horizontal flip. -/
def image_shape.draw (get_texture : String → scale_quality → texture) (self : image_shape)
    (_portion_to_draw draw_location : SDL_Rect) (vars : map_formula_callable) :
    Except String (map_formula_callable × List draw_call) :=
  let name := self.image_name_ vars
  if name = "" then .ok (vars, [])
  else
    let scale_quality :=
      if self.resize_mode_ = .stretch ∨ self.resize_mode_ = .scale then scale_quality.linear
      else scale_quality.nearest
    let tex := get_texture name scale_quality
    if tex.is_null then .ok (vars, [])
    else
      let local_variables : map_formula_callable := vars
      let local_variables := local_variables.add "image_original_width" (.of_int tex.w)
      let local_variables := local_variables.add "image_original_height" (.of_int tex.h)
      let w : Int := to_int (self.w_ local_variables % 2 ^ 32)
      match image_shape.dimension_validation (to_unsigned w) name "w" with
      | .error msg => .error msg
      | .ok _ =>
        let h : Int := to_int (self.h_ local_variables % 2 ^ 32)
        match image_shape.dimension_validation (to_unsigned h) name "h" with
        | .error msg => .error msg
        | .ok _ =>
          let local_variables :=
            local_variables.add "image_width" (.of_int (if w ≠ 0 then w else tex.w))
          let local_variables :=
            local_variables.add "image_height" (.of_int (if h ≠ 0 then h else tex.h))
          let clip_x : Nat := self.x_ local_variables % 2 ^ 32
          let clip_y : Nat := self.y_ local_variables % 2 ^ 32
          let local_variables := local_variables.add "clip_x" (.of_unsigned clip_x)
          let local_variables := local_variables.add "clip_y" (.of_unsigned clip_y)
          -- Execute the provided actions for this context.
          let vars := self.actions_formula_ local_variables vars
          -- If w or h is 0, assume it means the whole image.
          let w := if w = 0 then tex.w else w
          let h := if h = 0 then tex.h else h
          -- The image is to be placed at (x,y,w,h) in widget space.
          let x : Int := to_int clip_x
          let y : Int := to_int clip_y
          -- Convert this to draw space.
          let x := x + draw_location.x
          let y := y + draw_location.y
          let adjusted_draw_loc : SDL_Rect := ⟨x, y, w, h⟩
          -- What to do with the image depends on whether we need to tile it or not.
          let calls :=
            match self.resize_mode_ with
            | .tile => [draw_call.tiled tex adjusted_draw_loc false (self.mirror_ vars)]
            | .tile_center => [draw_call.tiled tex adjusted_draw_loc true (self.mirror_ vars)]
            | .tile_highres =>
              [draw_call.tiled_highres tex adjusted_draw_loc false (self.mirror_ vars)]
            | .stretch | .scale | .scale_sharp =>
              if self.mirror_ vars then [draw_call.flipped tex adjusted_draw_loc true false]
              else [draw_call.blit tex adjusted_draw_loc none]
          .ok (vars, calls)

/-- An image shape seen through the base class `shape`. -/
def image_shape.to_shape (get_texture : String → scale_quality → texture) (self : image_shape) :
    shape map_formula_callable :=
  ⟨self.draw get_texture⟩

/-- The class `canvas`. -/
structure canvas (V : Type) where
  shapes_ : List (shape V)
  blur_depth_ : Nat
  blur_texture_ : texture
  w_ : Nat
  h_ : Nat
  variables_ : V

/-- The loop of `canvas::draw` over the shapes, from the variables and the calls issued so
far; it stops at the first shape whose `draw` raises. -/
def canvas.draw_shapes {V : Type} (area_to_draw draw_location : SDL_Rect) :
    List (shape V) → V → List draw_call → Except String (V × List draw_call)
  | [], vars, calls => .ok (vars, calls)
  | s :: shapes, vars, calls =>
    match s.draw area_to_draw draw_location vars with
    | .error msg => .error msg
    | .ok (vars, shape_calls) =>
      canvas.draw_shapes area_to_draw draw_location shapes vars (calls ++ shape_calls)

/-- The function `canvas::draw(area_to_draw, draw_location)`: the canvas afterwards and the
drawing calls issued, the background first and then the shapes in order. -/
def canvas.draw {V : Type} (self : canvas V) (area_to_draw draw_location : SDL_Rect) :
    Except String (canvas V × List draw_call) :=
  -- Draw background.
  let calls :=
    if self.blur_depth_ != 0 && !self.blur_texture_.is_null then
      [draw_call.blit self.blur_texture_ draw_location (some area_to_draw)]
    else []
  -- draw items
  match canvas.draw_shapes area_to_draw draw_location self.shapes_ self.variables_ calls with
  | .error msg => .error msg
  | .ok (vars, calls) => .ok ({ self with variables_ := vars }, calls)

/-- The function `canvas::blit(rect)`.  A failed `VALIDATE` is an error carrying its message,
and so is an error raised by a shape while `canvas::draw` runs; `blur` stands for reading
back and blurring the pixels under the widget. -/
def canvas.blit {V : Type} (self : canvas V) (video : CVideo)
    (blur : SDL_Rect → Nat → texture) (rect : SDL_Rect) :
    Except String (canvas V × List draw_call) :=
  if self.shapes_.isEmpty then .ok (self, [])
  else if ¬ (rect.w ≥ 0 ∧ rect.h ≥ 0) then .error "Area to draw has negative size"
  else if ¬ (to_unsigned rect.w ≤ self.w_ ∧ to_unsigned rect.h ≤ self.h_) then
    .error "Area to draw is larger than widget size"
  else
    let parent : SDL_Rect := ⟨0, 0, video.draw_area.w, video.draw_area.h⟩
    match SDL_IntersectRect rect parent with
    | none => .ok (self, [])
    | some rect_clipped_to_parent =>
      let self :=
        if self.blur_depth_ != 0 && self.blur_texture_.is_null then
          { self with blur_texture_ := blur rect self.blur_depth_ }
        else self
      let area_to_draw : SDL_Rect :=
        { x := max 0 (-rect.x)
          y := max 0 (-rect.y)
          w := rect_clipped_to_parent.w
          h := rect_clipped_to_parent.h }
      self.draw area_to_draw rect

end gui2

/-! ## Concrete inputs -/

/-- A rectangle shape used to evaluate the code on a concrete input: 20 x 20 at (10, 10) in
widget space, with a one-pixel white border and no fill. -/
def example_rectangle : gui2.rectangle_shape Unit :=
  { x_ := fun _ => 10
    y_ := fun _ => 10
    w_ := fun _ => 20
    h_ := fun _ => 20
    border_thickness_ := 1
    border_color_ := fun _ => ⟨255, 255, 255, 255⟩
    fill_color_ := fun _ => color_t.null_color }

/-- A canvas of size 330 x 440 holding the example rectangle and no blur. -/
def example_canvas : gui2.canvas Unit :=
  { shapes_ := [example_rectangle.to_shape]
    blur_depth_ := 0
    blur_texture_ := ⟨none, 0, 0⟩
    w_ := 330
    h_ := 440
    variables_ := () }

/-- A canvas without shapes and of size 0 x 0, as the debug clock of the unit tests. -/
def empty_canvas : gui2.canvas Unit :=
  { shapes_ := []
    blur_depth_ := 0
    blur_texture_ := ⟨none, 0, 0⟩
    w_ := 0
    h_ := 0
    variables_ := () }

/-- A screen of 1000 x 1000 pixels with a renderer on which no clip is set. -/
def example_video : CVideo := ⟨some ⟨⟨0, 0, 0, 0⟩⟩, ⟨0, 0, 1000, 1000⟩⟩

/-- A stand-in for reading back and blurring pixels: it yields the null texture. -/
def no_blur : SDL_Rect → Nat → texture := fun _ _ => ⟨none, 0, 0⟩

/-- A texture cache that finds a 64 x 48 texture under every name. -/
def example_get_texture : String → gui2.scale_quality → texture := fun _ _ => ⟨some 1, 64, 48⟩

/-- An image shape at (5, 7) whose width and height are given and which is neither mirrored
nor changes the variables. -/
def example_image (w h : Nat) (mode : gui2.resize_mode) : gui2.image_shape :=
  { x_ := fun _ => 5
    y_ := fun _ => 7
    w_ := fun _ => w
    h_ := fun _ => h
    image_name_ := fun _ => "misc/selection.png"
    resize_mode_ := mode
    mirror_ := fun _ => false
    actions_formula_ := fun _ vars => vars }

/-- A canvas of size 330 x 440 holding one image shape whose width formula yields `-1`, as
the `unsigned` value `4294967295`. -/
def example_image_canvas : gui2.canvas gui2.map_formula_callable :=
  { shapes_ := [(example_image 4294967295 0 .scale).to_shape example_get_texture]
    blur_depth_ := 0
    blur_texture_ := ⟨none, 0, 0⟩
    w_ := 330
    h_ := 440
    variables_ := [] }

/-! ## Pixels of an outline -/

/-- Modelled from the spec: `SDL_RenderDrawRect`, to which `draw::rect` hands its rectangle,
belongs to the SDL library, which is not under src/; it draws the outline of the rectangle,
one pixel thick: the pixels of the rectangle in its first or last column or row. -/
def SDL_Rect.outline_contains (r : SDL_Rect) (px py : Int) : Prop :=
  r.contains px py ∧ (px = r.x ∨ px = r.x + r.w - 1 ∨ py = r.y ∨ py = r.y + r.h - 1)

instance (r : SDL_Rect) (px py : Int) : Decidable (r.outline_contains px py) := by
  unfold SDL_Rect.outline_contains; exact inferInstance

/-- A rectangle shape with a fill colour: 20 x 12 at (10, 10) in widget space, a grey fill
and a white border two pixels thick. -/
def example_filled_rectangle : gui2.rectangle_shape Unit :=
  { x_ := fun _ => 10
    y_ := fun _ => 10
    w_ := fun _ => 20
    h_ := fun _ => 12
    border_thickness_ := 2
    border_color_ := fun _ => ⟨255, 255, 255, 255⟩
    fill_color_ := fun _ => ⟨128, 128, 128, 255⟩ }

/-! ## Configuration trees and `canvas::parse_cfg` -/

/-- Modelled from the spec: `config_attribute_value` (config_attribute_value.hpp) is not under
src/ and the configuration-tree parser is an external collaborator; the value of an attribute
is its text together with its reading as an `unsigned`. -/
structure config_attribute_value where
  str : String
  to_unsigned : Nat

/-- Modelled from the spec: the `config` class (config.hpp) is not under src/; a configuration
tree has attributes and child tags, the children in the order in which they were written. -/
inductive config where
  | mk (attributes : List (String × config_attribute_value))
      (children : List (String × config))

/-- Modelled from the spec: `config::any_child` (config.hpp) is not under src/; a child tag
with its key and its content, as `all_children_range` yields it. -/
structure config.any_child where
  key : String
  cfg : config

/-- Modelled from the spec: `config::all_children_range` (config.hpp) is not under src/; all
child tags in order. -/
def config.all_children_range : config → List config.any_child
  | .mk _ children => children.map fun child => ⟨child.1, child.2⟩

/-- Modelled from the spec: `config::operator[]` (config.hpp) is not under src/; the value of
an attribute, blank when the attribute is absent. -/
def config.attr : config → String → config_attribute_value
  | .mk attributes _, key =>
    match attributes.find? (fun entry => entry.1 == key) with
    | some entry => entry.2
    | none => ⟨"", 0⟩

namespace gui2

/-- The constructors of the six shape classes, as `canvas::parse_cfg` calls them.  Each one
builds its formulas from the attributes of the configuration through `typed_formula` and the
formula compiler, which are not under src/, so they are parameters of `parse_cfg`; a
constructor yields the new shape, seen through the base class, or raises (the constructor of
`text_shape` does for a literal font size of 0).  The function table `functions_` that the
canvas hands to the constructor of `image_shape` is part of that parameter. -/
structure shape_constructors (V : Type) where
  line_shape : config → Except String (shape V)
  rectangle_shape : config → Except String (shape V)
  round_rectangle_shape : config → Except String (shape V)
  circle_shape : config → Except String (shape V)
  image_shape : config → Except String (shape V)
  text_shape : config → Except String (shape V)

/-- The statement `shapes_.emplace_back(std::make_unique<...>(data))`, given the outcome of
the constructor. -/
def canvas.emplace_back {V : Type} (self : canvas V) (made : Except String (shape V)) :
    Except String (canvas V) :=
  match made with
  | .error msg => .error msg
  | .ok s => .ok { self with shapes_ := self.shapes_ ++ [s] }

/-- The inner loop of `canvas::parse_cfg` over the children of a `pre_commit` tag: a `blur`
child sets the blur depth, any other child is only logged. -/
def canvas.parse_pre_commit {V : Type} (self : canvas V) : List config.any_child → canvas V
  | [] => self
  | function :: functions =>
    let self :=
      if function.key = "blur" then
        { self with blur_depth_ := (function.cfg.attr "depth").to_unsigned }
      else self
    canvas.parse_pre_commit self functions

/-- One round of the loop of `canvas::parse_cfg`.  A child of an unknown type is logged and
then fails `assert(false)`, which is an error here. -/
def canvas.parse_child {V : Type} (make : shape_constructors V) (self : canvas V)
    (shape : config.any_child) : Except String (canvas V) :=
  let type := shape.key
  let data := shape.cfg
  if type = "line" then
    self.emplace_back (make.line_shape data)
  else if type = "rectangle" then
    self.emplace_back (make.rectangle_shape data)
  else if type = "round_rectangle" then
    self.emplace_back (make.round_rectangle_shape data)
  else if type = "circle" then
    self.emplace_back (make.circle_shape data)
  else if type = "image" then
    self.emplace_back (make.image_shape data)
  else if type = "text" then
    self.emplace_back (make.text_shape data)
  else if type = "pre_commit" then
    .ok (self.parse_pre_commit data.all_children_range)
  else
    .error "assert(false)"

/-- The loop of `canvas::parse_cfg` over the children still to be read. -/
def canvas.parse_children {V : Type} (make : shape_constructors V) :
    canvas V → List config.any_child → Except String (canvas V)
  | self, [] => .ok self
  | self, shape :: shapes =>
    match self.parse_child make shape with
    | .error msg => .error msg
    | .ok self => canvas.parse_children make self shapes

/-- The function `canvas::parse_cfg(cfg)`. -/
def canvas.parse_cfg {V : Type} (make : shape_constructors V) (self : canvas V)
    (cfg : config) : Except String (canvas V) :=
  canvas.parse_children make self cfg.all_children_range

/-- The shape `s` is of the kind that the type of the child names: it is what the
constructor of that kind makes of the content of the child. -/
def shape_constructors.makes {V : Type} (make : shape_constructors V)
    (child : config.any_child) (s : shape V) : Prop :=
  (child.key = "line" ∧ make.line_shape child.cfg = .ok s) ∨
  (child.key = "rectangle" ∧ make.rectangle_shape child.cfg = .ok s) ∨
  (child.key = "round_rectangle" ∧ make.round_rectangle_shape child.cfg = .ok s) ∨
  (child.key = "circle" ∧ make.circle_shape child.cfg = .ok s) ∨
  (child.key = "image" ∧ make.image_shape child.cfg = .ok s) ∨
  (child.key = "text" ∧ make.text_shape child.cfg = .ok s)

/-- The depths of the `blur` children of the `pre_commit` children, in the order of the
configuration. -/
def spec_blur_depths (children : List config.any_child) : List Nat :=
  children.flatMap fun child =>
    if child.key = "pre_commit" then
      child.cfg.all_children_range.filterMap fun function =>
        if function.key = "blur" then some (function.cfg.attr "depth").to_unsigned else none
    else []

end gui2

/-- Constructors used to evaluate `canvas::parse_cfg`: every `rectangle` child makes the
example rectangle, and the other five constructors raise. -/
def example_constructors : gui2.shape_constructors Unit :=
  { line_shape := fun _ => .error "not constructed"
    rectangle_shape := fun _ => .ok example_rectangle.to_shape
    round_rectangle_shape := fun _ => .error "not constructed"
    circle_shape := fun _ => .error "not constructed"
    image_shape := fun _ => .error "not constructed"
    text_shape := fun _ => .error "Text has a font size of 0." }

/-- A configuration with a rectangle, a `pre_commit` tag holding two `blur` children of
depths 2 and 3, and a second rectangle. -/
def example_config : config :=
  .mk []
    [("rectangle", .mk [] []),
     ("pre_commit",
       .mk [] [("blur", .mk [("depth", ⟨"2", 2⟩)] []), ("blur", .mk [("depth", ⟨"3", 3⟩)] [])]),
     ("rectangle", .mk [] [])]

/-! ## The midpoint circle -/

theorem draw.mem_push_back_if {c : Bool} {points : List SDL_Point} {p q : SDL_Point}
    (h : q ∈ draw.push_back_if c points p) : q ∈ points ∨ q = p := by
  unfold draw.push_back_if at h
  split at h
  · simpa using h
  · exact Or.inl h

/-- Invariant of the loop of `draw::circle`: with `d = x² + y² - r² - x` every point
collected lies within `r` of the ideal circle. -/
theorem draw.circle_loop_bound (cx cy r : Int) (octants : Nat) :
    ∀ (n : Nat) (d x y : Int) (points : List SDL_Point),
      (x - y + 1).toNat = n →
      d = x ^ 2 + y ^ 2 - r ^ 2 - x → 0 ≤ y → x ≤ r →
      (y ≤ x → d ≤ 0 ∧ -r ≤ d + x) →
      (∀ p ∈ points, |(p.x - cx) ^ 2 + (p.y - cy) ^ 2 - r ^ 2| ≤ r) →
      ∀ p ∈ draw.circle_loop cx cy octants d x y points,
        |(p.x - cx) ^ 2 + (p.y - cy) ^ 2 - r ^ 2| ≤ r := by
  intro n
  induction n using Nat.strong_induction_on with
  | _ n ih =>
    intro d x y points hn hd hy hx hinv hpts
    rw [draw.circle_loop]
    split
    · rename_i hyx
      have hyx : y ≤ x := by omega
      obtain ⟨hd0, hdl⟩ := hinv hyx
      have key : ∀ q : SDL_Point,
          (q.x - cx) ^ 2 + (q.y - cy) ^ 2 = x ^ 2 + y ^ 2 →
          |(q.x - cx) ^ 2 + (q.y - cy) ^ 2 - r ^ 2| ≤ r := by
        intro q hq
        rw [hq, abs_le]
        constructor <;> linarith
      have hpts8 : ∀ p ∈
          draw.push_back_if (octants &&& 0x80 != 0)
            (draw.push_back_if (octants &&& 0x10 != 0)
              (draw.push_back_if (octants &&& 0x01 != 0)
                (draw.push_back_if (octants &&& 0x08 != 0)
                  (draw.push_back_if (octants &&& 0x40 != 0)
                    (draw.push_back_if (octants &&& 0x20 != 0)
                      (draw.push_back_if (octants &&& 0x02 != 0)
                        (draw.push_back_if (octants &&& 0x04 != 0) points ⟨cx + x, cy + y⟩)
                        ⟨cx + x, cy - y⟩) ⟨cx - x, cy + y⟩) ⟨cx - x, cy - y⟩)
                  ⟨cx + y, cy + x⟩) ⟨cx + y, cy - x⟩) ⟨cx - y, cy + x⟩) ⟨cx - y, cy - x⟩,
          |(p.x - cx) ^ 2 + (p.y - cy) ^ 2 - r ^ 2| ≤ r := by
        intro p hp
        rcases draw.mem_push_back_if hp with hp | rfl
        rcases draw.mem_push_back_if hp with hp | rfl
        rcases draw.mem_push_back_if hp with hp | rfl
        rcases draw.mem_push_back_if hp with hp | rfl
        rcases draw.mem_push_back_if hp with hp | rfl
        rcases draw.mem_push_back_if hp with hp | rfl
        rcases draw.mem_push_back_if hp with hp | rfl
        rcases draw.mem_push_back_if hp with hp | rfl
        · exact hpts p hp
        all_goals exact key _ (by simp only; ring)
      simp only []
      split
      · rename_i hpos
        refine ih ((x - 1 - (y + 1) + 1).toNat) (by omega) _ _ _ _ rfl ?_ (by omega) (by omega)
          ?_ hpts8
        · rw [hd]; ring
        · intro h
          constructor <;> omega
      · rename_i hneg
        refine ih ((x - (y + 1) + 1).toNat) (by omega) _ _ _ _ rfl ?_ (by omega) hx ?_ hpts8
        · rw [hd]; ring
        · intro h
          constructor <;> omega
    · exact hpts

/-- C1: every point that `draw::circle` plots, for every centre, radius and octant mask,
lies within `r` of the ideal circle: `|(px - cx)² + (py - cy)² - r²| ≤ r`. -/
theorem circle_points_near_ideal_circle (cx cy r : Int) (octants : Nat)
    (pts : List SDL_Point) (hcall : draw_call.points pts ∈ draw.circle cx cy r octants)
    (p : SDL_Point) (hp : p ∈ pts) :
    |(p.x - cx) ^ 2 + (p.y - cy) ^ 2 - r ^ 2| ≤ r := by
  simp only [draw.circle, List.mem_singleton, draw_call.points.injEq] at hcall
  subst hcall
  by_cases hr : 0 ≤ r
  · refine draw.circle_loop_bound cx cy r octants _ (-r) r 0 [] rfl (by ring) le_rfl le_rfl
      ?_ (by simp) p hp
    intro _
    constructor <;> omega
  · rw [draw.circle_loop] at hp
    simp only [gt_iff_lt, not_lt] at hp
    rw [if_neg (by omega)] at hp
    simp at hp

theorem circle_points_near_ideal_circle_witness :
    draw_call.points [⟨3, 0⟩, ⟨0, -3⟩, ⟨3, -1⟩, ⟨1, -3⟩, ⟨2, -2⟩, ⟨2, -2⟩]
        ∈ draw.circle 0 0 3 0x03 ∧
      (⟨1, -3⟩ : SDL_Point) ∈
        ([⟨3, 0⟩, ⟨0, -3⟩, ⟨3, -1⟩, ⟨1, -3⟩, ⟨2, -2⟩, ⟨2, -2⟩] : List SDL_Point) ∧
      |((1 : Int) - 0) ^ 2 + (-3 - 0) ^ 2 - 3 ^ 2| ≤ 3 :=
  have h1 : draw_call.points [⟨3, 0⟩, ⟨0, -3⟩, ⟨3, -1⟩, ⟨1, -3⟩, ⟨2, -2⟩, ⟨2, -2⟩]
      ∈ draw.circle 0 0 3 0x03 := by
    simp +decide [draw.circle, draw.circle_loop, draw.push_back_if]
  have h2 : (⟨1, -3⟩ : SDL_Point) ∈
      ([⟨3, 0⟩, ⟨0, -3⟩, ⟨3, -1⟩, ⟨1, -3⟩, ⟨2, -2⟩, ⟨2, -2⟩] : List SDL_Point) := by
    decide
  ⟨h1, h2, circle_points_near_ideal_circle 0 0 3 0x03 _ h1 ⟨1, -3⟩ h2⟩

/-! ## The disc -/

/-- C2, evaluated at the radius 1 with the mask 0x03: when the loop of `draw::disc` reaches
`y = x = 1` the segment of octant 0x02 runs from column `x` to column `y + 1 = x + 1`, so it
covers the pixel at offset `(2, -1)`, for which `dx² + dy² = 5` exceeds `r² + r = 2`. -/
theorem disc_segment_outside_circle :
    draw.disc 0 0 1 0x03 =
        [draw_call.line 1 0 1 0, draw_call.line 0 (-1) 0 0,
         draw_call.line 1 (-1) 2 (-1), draw_call.line 1 (-1) 1 (-1)] ∧
      on_segment 1 (-1) 2 (-1) 2 (-1) ∧
      ¬ ((2 : Int) ^ 2 + (-1) ^ 2 ≤ 1 ^ 2 + 1) := by
  refine ⟨?_, by decide, by decide⟩
  simp +decide [draw.disc, draw.disc_loop, draw.line_if]

/-! ## Tiling -/

theorem draw.tiled_row_fuel_mono (tex : texture) (mirrored : Bool) (xend : Int) (vf : Bool)
    (k : Nat) : ∀ (fuel : Nat) (t : SDL_Rect) (hf : Bool) (calls : List draw_call)
      (res : SDL_Rect × List draw_call),
      draw.tiled_row fuel tex mirrored xend vf t hf calls = some res →
      draw.tiled_row (fuel + k) tex mirrored xend vf t hf calls = some res := by
  intro fuel
  induction fuel with
  | zero => intro t hf calls res h; simp [draw.tiled_row] at h
  | succ fuel ih =>
    intro t hf calls res h
    rw [show fuel + 1 + k = (fuel + k) + 1 by omega]
    rw [draw.tiled_row] at h ⊢
    split
    · rename_i hlt
      rw [if_pos hlt] at h
      exact ih _ _ _ _ h
    · rename_i hlt
      rw [if_neg hlt] at h
      exact h

theorem draw.tiled_rows_fuel_mono (tex : texture) (mirrored : Bool) (dst : SDL_Rect)
    (xoff : Int) (k : Nat) : ∀ (fuel : Nat) (t : SDL_Rect) (vf : Bool)
      (calls res : List draw_call),
      draw.tiled_rows fuel tex mirrored dst xoff t vf calls = some res →
      draw.tiled_rows (fuel + k) tex mirrored dst xoff t vf calls = some res := by
  intro fuel
  induction fuel with
  | zero => intro t vf calls res h; simp [draw.tiled_rows] at h
  | succ fuel ih =>
    intro t vf calls res h
    rw [show fuel + 1 + k = (fuel + k) + 1 by omega]
    rw [draw.tiled_rows] at h ⊢
    split
    · rename_i hlt
      rw [if_pos hlt] at h
      simp only [] at h ⊢
      cases hrow : draw.tiled_row fuel tex mirrored (dst.x + dst.w) vf
          { t with x := dst.x - xoff } false calls with
      | none => rw [hrow] at h; simp at h
      | some r =>
        rw [hrow] at h
        rw [draw.tiled_row_fuel_mono tex mirrored _ vf k fuel _ _ _ r hrow]
        exact ih _ _ _ _ h
    · rename_i hlt
      rw [if_neg hlt] at h
      exact h

theorem draw.tiled_fuel_mono (video : CVideo) (tex : texture) (dst : SDL_Rect)
    (centered mirrored : Bool) (fuel k : Nat) (res : CVideo × List draw_call)
    (h : draw.tiled fuel video tex dst centered mirrored = some res) :
    draw.tiled (fuel + k) video tex dst centered mirrored = some res := by
  unfold draw.tiled at h ⊢
  split
  · rename_i hnull
    rw [if_pos hnull] at h
    exact h
  · rename_i hnull
    rw [if_neg hnull] at h
    simp only [] at h ⊢
    split at h
    · simp at h
    · rename_i calls hcalls
      rw [draw.tiled_rows_fuel_mono tex mirrored dst _ k fuel _ _ _ calls hcalls]
      exact h

/-- C3, evaluated at a 10 x 10 texture, the destination `{0, 0, 4, 4}` and `centered = true`:
with any fuel of at least 3 and any renderer state, `draw::tiled` issues the single blit
`{3, 3, 10, 10}`, so the pixel `(0, 0)` of the destination lies in no tile. -/
theorem tiled_centered_leaves_gap (n : Nat) (video : CVideo) :
    Option.map Prod.snd
        (draw.tiled (n + 3) video ⟨some 1, 10, 10⟩ ⟨0, 0, 4, 4⟩ true false) =
        some [draw_call.blit ⟨some 1, 10, 10⟩ ⟨3, 3, 10, 10⟩ none] ∧
      (⟨0, 0, 4, 4⟩ : SDL_Rect).contains 0 0 ∧
      ¬ (⟨3, 3, 10, 10⟩ : SDL_Rect).contains 0 0 := by
  refine ⟨?_, by decide, by decide⟩
  have h3 : ∃ v, draw.tiled 3 video ⟨some 1, 10, 10⟩ ⟨0, 0, 4, 4⟩ true false =
      some (v, [draw_call.blit ⟨some 1, 10, 10⟩ ⟨3, 3, 10, 10⟩ none]) := by
    simp +decide [draw.tiled, draw.tiled_rows, draw.tiled_row, texture.is_null]
  obtain ⟨v, hv⟩ := h3
  rw [Nat.add_comm, draw.tiled_fuel_mono _ _ _ _ _ 3 n _ hv]
  rfl

/-! ## Rectangle intersection -/

theorem to_int_mod (u : Nat) : to_int (u % 2 ^ 32) = to_int u := by
  unfold to_int
  simp only [Nat.mod_mod]

theorem to_int_is_int (u : Nat) : is_int (to_int u) := by
  unfold to_int is_int
  split <;> omega

theorem int_sub_unsigned_exact (a : Int) (u : Nat)
    (h0 : 0 ≤ a - to_int u) (h1 : a - to_int u < 2 ^ 31) :
    int_sub_unsigned a u = a - to_int u := by
  unfold int_sub_unsigned to_unsigned
  unfold to_int at h0 h1 ⊢
  split at h0 <;> split <;> omega

theorem SDL_IntersectRect_eq_some {A B R : SDL_Rect} (h : SDL_IntersectRect A B = some R) :
    0 < A.w ∧ 0 < A.h ∧ 0 < B.w ∧ 0 < B.h ∧ 0 < R.w ∧ 0 < R.h ∧
      R.x = max A.x B.x ∧ R.y = max A.y B.y ∧
      R.x + R.w = min (A.x + A.w) (B.x + B.w) ∧ R.y + R.h = min (A.y + A.h) (B.y + B.h) := by
  unfold SDL_IntersectRect at h
  simp only [SDL_RectEmpty, Bool.or_eq_true, decide_eq_true_eq] at h
  split_ifs at h <;> simp only [Option.some.injEq, reduceCtorEq] at h <;> subst h <;>
    simp only [] <;> omega

theorem SDL_IntersectRect_contains {A B R : SDL_Rect} (h : SDL_IntersectRect A B = some R)
    (px py : Int) : R.contains px py ↔ A.contains px py ∧ B.contains px py := by
  have := SDL_IntersectRect_eq_some h
  unfold SDL_Rect.contains
  omega

theorem SDL_IntersectRect_eq_none_iff (A B : SDL_Rect) :
    SDL_IntersectRect A B = none ↔ ¬ ∃ px py, A.contains px py ∧ B.contains px py := by
  constructor
  · intro h
    rintro ⟨px, py, hA, hB⟩
    unfold SDL_Rect.contains at hA hB
    unfold SDL_IntersectRect at h
    simp only [SDL_RectEmpty, Bool.or_eq_true, decide_eq_true_eq] at h
    split_ifs at h <;> omega
  · intro h
    cases hR : SDL_IntersectRect A B with
    | none => rfl
    | some R =>
      exfalso
      apply h
      have hs := SDL_IntersectRect_eq_some hR
      refine ⟨R.x, R.y, ?_⟩
      rw [← SDL_IntersectRect_contains hR]
      unfold SDL_Rect.contains
      omega

/-! ## `calculate_rects` -/

/-- C7: `calculate_rects` reports `empty = true` if and only if the shape rectangle
`(x, y, w, h)` and `view_bounds` share no pixel, which is to say that one of them has a
non-positive width or height or that they do not overlap; `dst_on_widget` is `(x, y, w, h)`
in every case, and when `empty` is true the other four rectangles are all-zero. -/
theorem calculate_rects_empty_iff {V : Type} (s : gui2.rect_bounded_shape V)
    (view_bounds : SDL_Rect) (vars : V) :
    let shape_rect : SDL_Rect :=
      ⟨to_int (s.x_ vars), to_int (s.y_ vars), to_int (s.w_ vars), to_int (s.h_ vars)⟩
    let rects := s.calculate_rects view_bounds vars
    (rects.empty = true ↔
        ¬ ∃ px py, shape_rect.contains px py ∧ view_bounds.contains px py) ∧
      (rects.empty = true ↔
        (shape_rect.w ≤ 0 ∨ shape_rect.h ≤ 0 ∨ view_bounds.w ≤ 0 ∨ view_bounds.h ≤ 0 ∨
          shape_rect.x + shape_rect.w ≤ view_bounds.x ∨
          view_bounds.x + view_bounds.w ≤ shape_rect.x ∨
          shape_rect.y + shape_rect.h ≤ view_bounds.y ∨
          view_bounds.y + view_bounds.h ≤ shape_rect.y)) ∧
      rects.dst_on_widget = shape_rect ∧
      (rects.empty = false ∨
        (rects.clip_on_widget = ⟨0, 0, 0, 0⟩ ∧ rects.clip_in_shape = ⟨0, 0, 0, 0⟩ ∧
          rects.unclipped_around_viewport = ⟨0, 0, 0, 0⟩ ∧
          rects.dst_in_viewport = ⟨0, 0, 0, 0⟩)) := by
  intro shape_rect rects
  have hx : shape_rect.x = to_int (s.x_ vars) := rfl
  have hy : shape_rect.y = to_int (s.y_ vars) := rfl
  have hw : shape_rect.w = to_int (s.w_ vars) := rfl
  have hh : shape_rect.h = to_int (s.h_ vars) := rfl
  have hrects : rects = s.calculate_rects view_bounds vars := rfl
  unfold gui2.rect_bounded_shape.calculate_rects at hrects
  simp only [to_int_mod, sdl.create_rect] at hrects
  cases hI : SDL_IntersectRect shape_rect view_bounds with
  | none =>
    have hI2 := hI
    simp only [shape_rect] at hI2
    rw [hI2] at hrects
    simp only [] at hrects
    have hnone := (SDL_IntersectRect_eq_none_iff shape_rect view_bounds).mp hI
    rw [hrects]
    refine ⟨by simpa using hnone, ?_, rfl, Or.inr ⟨rfl, rfl, rfl, rfl⟩⟩
    simp only [true_iff]
    by_contra hcon
    apply hnone
    refine ⟨max shape_rect.x view_bounds.x, max shape_rect.y view_bounds.y, ?_⟩
    unfold SDL_Rect.contains
    omega
  | some clip =>
    have hI2 := hI
    simp only [shape_rect] at hI2
    rw [hI2] at hrects
    simp only [] at hrects
    have hs := SDL_IntersectRect_eq_some hI
    rw [hrects]
    refine ⟨?_, ?_, rfl, Or.inl rfl⟩
    · simp only [Bool.false_eq_true, false_iff, not_not]
      refine ⟨clip.x, clip.y, ?_⟩
      rw [← SDL_IntersectRect_contains hI]
      unfold SDL_Rect.contains
      omega
    · simp only [Bool.false_eq_true, false_iff]
      omega

/-- C8: when `calculate_rects` reports `empty = false`, `clip_on_widget` is the intersection
of the shape rectangle and `view_bounds`; `clip_in_shape` is `clip_on_widget` translated by
`(-x, -y)` and lies inside `{0, 0, w, h}`; `dst_in_viewport` is `clip_on_widget` translated by
`(-v.x, -v.y)` and lies inside `{0, 0, v.w, v.h}`; `unclipped_around_viewport` is
`(x - v.x, y - v.y, w, h)`; and `clip_in_shape` and `dst_in_viewport` have the same strictly
positive width and height. -/
theorem calculate_rects_visible {V : Type} (s : gui2.rect_bounded_shape V)
    (view_bounds : SDL_Rect) (vars : V)
    (hvisible : (s.calculate_rects view_bounds vars).empty = false) :
    let shape_rect : SDL_Rect :=
      ⟨to_int (s.x_ vars), to_int (s.y_ vars), to_int (s.w_ vars), to_int (s.h_ vars)⟩
    let rects := s.calculate_rects view_bounds vars
    (∀ px py, rects.clip_on_widget.contains px py ↔
        shape_rect.contains px py ∧ view_bounds.contains px py) ∧
      rects.clip_in_shape =
        ⟨rects.clip_on_widget.x - shape_rect.x, rects.clip_on_widget.y - shape_rect.y,
          rects.clip_on_widget.w, rects.clip_on_widget.h⟩ ∧
      (0 ≤ rects.clip_in_shape.x ∧ 0 ≤ rects.clip_in_shape.y ∧
        rects.clip_in_shape.x + rects.clip_in_shape.w ≤ shape_rect.w ∧
        rects.clip_in_shape.y + rects.clip_in_shape.h ≤ shape_rect.h) ∧
      rects.dst_in_viewport =
        ⟨rects.clip_on_widget.x - view_bounds.x, rects.clip_on_widget.y - view_bounds.y,
          rects.clip_on_widget.w, rects.clip_on_widget.h⟩ ∧
      (0 ≤ rects.dst_in_viewport.x ∧ 0 ≤ rects.dst_in_viewport.y ∧
        rects.dst_in_viewport.x + rects.dst_in_viewport.w ≤ view_bounds.w ∧
        rects.dst_in_viewport.y + rects.dst_in_viewport.h ≤ view_bounds.h) ∧
      rects.unclipped_around_viewport =
        ⟨shape_rect.x - view_bounds.x, shape_rect.y - view_bounds.y,
          shape_rect.w, shape_rect.h⟩ ∧
      rects.clip_in_shape.w = rects.dst_in_viewport.w ∧
      rects.clip_in_shape.h = rects.dst_in_viewport.h ∧
      0 < rects.clip_in_shape.w ∧ 0 < rects.clip_in_shape.h := by
  intro shape_rect rects
  have hx : shape_rect.x = to_int (s.x_ vars) := rfl
  have hy : shape_rect.y = to_int (s.y_ vars) := rfl
  have hw : shape_rect.w = to_int (s.w_ vars) := rfl
  have hh : shape_rect.h = to_int (s.h_ vars) := rfl
  have hwi := to_int_is_int (s.w_ vars)
  have hhi := to_int_is_int (s.h_ vars)
  unfold is_int at hwi hhi
  have hrects : rects = s.calculate_rects view_bounds vars := rfl
  have hvis : rects.empty = false := hvisible
  unfold gui2.rect_bounded_shape.calculate_rects at hrects
  simp only [sdl.create_rect] at hrects
  cases hI : SDL_IntersectRect shape_rect view_bounds with
  | none =>
    have hI2 := hI
    simp only [shape_rect, ← to_int_mod (s.x_ vars), ← to_int_mod (s.y_ vars),
      ← to_int_mod (s.w_ vars), ← to_int_mod (s.h_ vars)] at hI2
    rw [hI2] at hrects
    rw [hrects] at hvis
    simp at hvis
  | some clip =>
    have hI2 := hI
    simp only [shape_rect, ← to_int_mod (s.x_ vars), ← to_int_mod (s.y_ vars),
      ← to_int_mod (s.w_ vars), ← to_int_mod (s.h_ vars)] at hI2
    rw [hI2] at hrects
    simp only [] at hrects
    have hs := SDL_IntersectRect_eq_some hI
    have ex : int_sub_unsigned clip.x (s.x_ vars % 2 ^ 32) = clip.x - shape_rect.x := by
      rw [hx, ← to_int_mod (s.x_ vars)]
      apply int_sub_unsigned_exact <;> rw [to_int_mod] <;> omega
    have ey : int_sub_unsigned clip.y (s.y_ vars % 2 ^ 32) = clip.y - shape_rect.y := by
      rw [hy, ← to_int_mod (s.y_ vars)]
      apply int_sub_unsigned_exact <;> rw [to_int_mod] <;> omega
    rw [ex, ey] at hrects
    simp only [to_int_mod] at hrects
    rw [hrects]
    refine ⟨fun px py => SDL_IntersectRect_contains hI px py, rfl, ?_, rfl, ?_, rfl, rfl, rfl,
      ?_, ?_⟩ <;> simp only [] <;> omega

theorem calculate_rects_visible_witness :
    (({ x_ := fun _ => 10, y_ := fun _ => 10, w_ := fun _ => 20, h_ := fun _ => 20 } :
        gui2.rect_bounded_shape Unit).calculate_rects ⟨15, 0, 100, 25⟩ ()).empty = false ∧
      (({ x_ := fun _ => 10, y_ := fun _ => 10, w_ := fun _ => 20, h_ := fun _ => 20 } :
        gui2.rect_bounded_shape Unit).calculate_rects ⟨15, 0, 100, 25⟩ ()).clip_in_shape =
          ⟨5, 0, 15, 15⟩ ∧
      (({ x_ := fun _ => 10, y_ := fun _ => 10, w_ := fun _ => 20, h_ := fun _ => 20 } :
        gui2.rect_bounded_shape Unit).calculate_rects ⟨15, 0, 100, 25⟩ ()).dst_in_viewport =
          ⟨0, 10, 15, 15⟩ ∧
      (({ x_ := fun _ => 10, y_ := fun _ => 10, w_ := fun _ => 20, h_ := fun _ => 20 } :
        gui2.rect_bounded_shape Unit).calculate_rects ⟨15, 0, 100, 25⟩ ()).unclipped_around_viewport =
          ⟨-5, 10, 20, 20⟩ :=
  have h : (({ x_ := fun _ => 10, y_ := fun _ => 10, w_ := fun _ => 20, h_ := fun _ => 20 } :
        gui2.rect_bounded_shape Unit).calculate_rects ⟨15, 0, 100, 25⟩ ()).empty = false := by
    decide
  have c := calculate_rects_visible
    ({ x_ := fun _ => 10, y_ := fun _ => 10, w_ := fun _ => 20, h_ := fun _ => 20 } :
        gui2.rect_bounded_shape Unit) ⟨15, 0, 100, 25⟩ () h
  ⟨h, by decide, by decide, c.2.2.2.2.2.1.trans (by decide)⟩

/-! ## `canvas::blit` -/

theorem to_unsigned_of_nonneg_int {i : Int} (h0 : 0 ≤ i) (h : is_int i) :
    ((to_unsigned i : Nat) : Int) = i := by
  unfold to_unsigned
  unfold is_int at h
  omega

/-- What `canvas::blit` does once the shape list is non-empty and both `VALIDATE`s pass. -/
theorem gui2.canvas.blit_validated {V : Type} (c : gui2.canvas V) (video : CVideo)
    (blur : SDL_Rect → Nat → texture) (rect : SDL_Rect)
    (hshapes : c.shapes_ ≠ []) (hrange : rect.in_int_range)
    (hw0 : 0 ≤ rect.w) (hh0 : 0 ≤ rect.h) (hw : rect.w ≤ c.w_) (hh : rect.h ≤ c.h_) :
    c.blit video blur rect =
      match SDL_IntersectRect rect ⟨0, 0, video.draw_area.w, video.draw_area.h⟩ with
      | none => .ok (c, [])
      | some rect_clipped_to_parent =>
        (if c.blur_depth_ != 0 && c.blur_texture_.is_null then
              { c with blur_texture_ := blur rect c.blur_depth_ }
            else c).draw
          ⟨max 0 (-rect.x), max 0 (-rect.y), rect_clipped_to_parent.w,
            rect_clipped_to_parent.h⟩ rect := by
  have e1 : c.shapes_.isEmpty = false := by
    cases hs : c.shapes_ with
    | nil => exact absurd hs hshapes
    | cons a l => rfl
  have e2 := to_unsigned_of_nonneg_int hw0 hrange.2.2.1
  have e3 := to_unsigned_of_nonneg_int hh0 hrange.2.2.2
  have e4 : to_unsigned rect.w ≤ c.w_ ∧ to_unsigned rect.h ≤ c.h_ := by
    constructor <;> omega
  unfold gui2.canvas.blit
  rw [e1]
  simp only [Bool.false_eq_true, if_false, ge_iff_le, hw0, hh0, and_self, not_true_eq_false,
    e4]

/-- C5: when the shape list is non-empty and `rect` passes both `VALIDATE`s, `canvas::blit`
is one call of `canvas::draw` with `draw_location = rect` and
`area_to_draw = {max(0, -rect.x), max(0, -rect.y), cw, ch}`, where `cw x ch` is the size of
the intersection `clipped` of `rect` with the screen, provided the two share a pixel; that
area lies inside the widget; and when they share no pixel nothing is drawn. -/
theorem blit_visible_portion {V : Type} (c : gui2.canvas V) (video : CVideo)
    (blur : SDL_Rect → Nat → texture) (rect : SDL_Rect)
    (hshapes : c.shapes_ ≠ []) (hrange : rect.in_int_range)
    (hw0 : 0 ≤ rect.w) (hh0 : 0 ≤ rect.h) (hw : rect.w ≤ c.w_) (hh : rect.h ≤ c.h_) :
    let screen : SDL_Rect := ⟨0, 0, video.draw_area.w, video.draw_area.h⟩
    let clipped : SDL_Rect :=
      ⟨max rect.x 0, max rect.y 0,
        min (rect.x + rect.w) screen.w - max rect.x 0,
        min (rect.y + rect.h) screen.h - max rect.y 0⟩
    let area_to_draw : SDL_Rect := ⟨max 0 (-rect.x), max 0 (-rect.y), clipped.w, clipped.h⟩
    let canvas_with_blur :=
      if c.blur_depth_ != 0 && c.blur_texture_.is_null then
        { c with blur_texture_ := blur rect c.blur_depth_ }
      else c
    ((∃ px py, rect.contains px py ∧ screen.contains px py) →
        c.blit video blur rect = canvas_with_blur.draw area_to_draw rect ∧
        (∀ px py, clipped.contains px py ↔ rect.contains px py ∧ screen.contains px py) ∧
        area_to_draw.x + area_to_draw.w ≤ rect.w ∧
        area_to_draw.y + area_to_draw.h ≤ rect.h) ∧
      ((¬ ∃ px py, rect.contains px py ∧ screen.contains px py) →
        c.blit video blur rect = .ok (c, [])) := by
  intro screen clipped area_to_draw canvas_with_blur
  have hblit := gui2.canvas.blit_validated c video blur rect hshapes hrange hw0 hh0 hw hh
  have hsx : screen.x = 0 := rfl
  have hsy : screen.y = 0 := rfl
  constructor
  · intro hshare
    cases hI : SDL_IntersectRect rect screen with
    | none => exact absurd hshare ((SDL_IntersectRect_eq_none_iff rect screen).mp hI)
    | some R =>
      have hs := SDL_IntersectRect_eq_some hI
      have hR : R = clipped := by
        cases R
        simp only [clipped, SDL_Rect.mk.injEq]
        simp only [] at hs
        omega
      have hI2 := hI
      simp only [screen] at hI2
      rw [hI2] at hblit
      simp only [] at hblit
      refine ⟨?_, ?_, ?_, ?_⟩
      · rw [hblit, hR]
      · intro px py
        rw [← hR]
        exact SDL_IntersectRect_contains hI px py
      · rw [hR] at hs
        simp only [area_to_draw] at hs ⊢
        omega
      · rw [hR] at hs
        simp only [area_to_draw] at hs ⊢
        omega
  · intro hshare
    have hI := (SDL_IntersectRect_eq_none_iff rect screen).mpr hshare
    simp only [screen] at hI
    rw [hI] at hblit
    exact hblit

theorem blit_visible_portion_witness :
    example_canvas.shapes_ ≠ [] ∧ (⟨-1, 2, 330, 440⟩ : SDL_Rect).in_int_range ∧
      (0 : Int) ≤ 330 ∧ (0 : Int) ≤ 440 ∧
      (330 : Int) ≤ example_canvas.w_ ∧ (440 : Int) ≤ example_canvas.h_ ∧
      (∃ px py, (⟨-1, 2, 330, 440⟩ : SDL_Rect).contains px py ∧
        (⟨0, 0, 1000, 1000⟩ : SDL_Rect).contains px py) ∧
      SDL_IntersectRect ⟨-1, 2, 330, 440⟩ ⟨0, 0, 1000, 1000⟩ = some ⟨0, 2, 329, 440⟩ ∧
      example_canvas.blit example_video no_blur ⟨-1, 2, 330, 440⟩ =
        example_canvas.draw ⟨1, 0, 329, 440⟩ ⟨-1, 2, 330, 440⟩ :=
  have hs : example_canvas.shapes_ ≠ [] := by simp [example_canvas]
  have hshare : ∃ px py, (⟨-1, 2, 330, 440⟩ : SDL_Rect).contains px py ∧
      (⟨0, 0, 1000, 1000⟩ : SDL_Rect).contains px py := ⟨0, 2, by decide⟩
  ⟨hs, by decide, by decide, by decide, by decide, by decide, hshare, by decide,
    ((blit_visible_portion example_canvas example_video no_blur ⟨-1, 2, 330, 440⟩ hs
      (by decide) (by decide) (by decide) (by decide) (by decide)).1 hshare).1⟩

/-- C6, evaluated at a canvas of size 330 x 440 that holds an image shape whose width formula
yields `-1`: `canvas::blit` raises the validation error of `image_shape::draw` for the rect
`{0, 0, 330, 440}`, which is neither negative nor larger than the widget. -/
theorem blit_raises_for_image_shape :
    example_image_canvas.blit example_video no_blur ⟨0, 0, 330, 440⟩ =
        .error "Image doesn't fit on canvas." ∧
      example_image_canvas.shapes_ ≠ [] ∧
      ¬ ((330 : Int) < 0 ∨ (440 : Int) < 0 ∨ (330 : Int) > example_image_canvas.w_ ∨
        (440 : Int) > example_image_canvas.h_) := by
  refine ⟨by rfl, by simp [example_image_canvas], by decide⟩

/-- C6, as amended: a canvas without shapes returns without drawing and without raising,
whatever the rect; a canvas with at least one shape raises "Area to draw has negative size"
when `rect.w < 0` or `rect.h < 0`, raises "Area to draw is larger than widget size" when the
size is not negative and `rect.w > w_` or `rect.h > h_`, and otherwise draws nothing when
`rect` misses the screen and is one call of `canvas::draw`; hence `canvas::blit` raises if and
only if the canvas holds a shape and either the rect fails one of these two checks or that
call of `canvas::draw` raises. -/
theorem blit_validation_errors {V : Type} (c : gui2.canvas V) (video : CVideo)
    (blur : SDL_Rect → Nat → texture) (rect : SDL_Rect) (hrange : rect.in_int_range) :
    let drawn : Except String (gui2.canvas V × List draw_call) :=
      match SDL_IntersectRect rect ⟨0, 0, video.draw_area.w, video.draw_area.h⟩ with
      | none => .ok (c, [])
      | some rect_clipped_to_parent =>
        (if c.blur_depth_ != 0 && c.blur_texture_.is_null then
              { c with blur_texture_ := blur rect c.blur_depth_ }
            else c).draw
          ⟨max 0 (-rect.x), max 0 (-rect.y), rect_clipped_to_parent.w,
            rect_clipped_to_parent.h⟩ rect
    (c.shapes_ = [] → c.blit video blur rect = .ok (c, [])) ∧
      (c.shapes_ ≠ [] → (rect.w < 0 ∨ rect.h < 0) →
        c.blit video blur rect = .error "Area to draw has negative size") ∧
      (c.shapes_ ≠ [] → 0 ≤ rect.w → 0 ≤ rect.h → (rect.w > c.w_ ∨ rect.h > c.h_) →
        c.blit video blur rect = .error "Area to draw is larger than widget size") ∧
      (c.shapes_ ≠ [] → 0 ≤ rect.w → 0 ≤ rect.h → rect.w ≤ c.w_ → rect.h ≤ c.h_ →
        c.blit video blur rect = drawn) ∧
      ((∃ msg, c.blit video blur rect = .error msg) ↔
        (c.shapes_ ≠ [] ∧
          ((rect.w < 0 ∨ rect.h < 0 ∨ rect.w > c.w_ ∨ rect.h > c.h_) ∨
            ∃ msg, drawn = .error msg))) := by
  intro drawn
  have h1 : c.shapes_ = [] → c.blit video blur rect = .ok (c, []) := by
    intro hshapes
    unfold gui2.canvas.blit
    simp [hshapes]
  have e1 : c.shapes_ ≠ [] → c.shapes_.isEmpty = false := by
    intro hshapes
    cases hs : c.shapes_ with
    | nil => exact absurd hs hshapes
    | cons a l => rfl
  have h2 : c.shapes_ ≠ [] → (rect.w < 0 ∨ rect.h < 0) →
      c.blit video blur rect = .error "Area to draw has negative size" := by
    intro hshapes hneg
    unfold gui2.canvas.blit
    rw [e1 hshapes]
    have : ¬ (rect.w ≥ 0 ∧ rect.h ≥ 0) := by omega
    simp only [Bool.false_eq_true, if_false, if_pos this]
  have h3 : c.shapes_ ≠ [] → 0 ≤ rect.w → 0 ≤ rect.h → (rect.w > c.w_ ∨ rect.h > c.h_) →
      c.blit video blur rect = .error "Area to draw is larger than widget size" := by
    intro hshapes hw0 hh0 hbig
    have e2 := to_unsigned_of_nonneg_int hw0 hrange.2.2.1
    have e3 := to_unsigned_of_nonneg_int hh0 hrange.2.2.2
    have e4 : ¬ (to_unsigned rect.w ≤ c.w_ ∧ to_unsigned rect.h ≤ c.h_) := by omega
    unfold gui2.canvas.blit
    rw [e1 hshapes]
    simp only [Bool.false_eq_true, if_false, ge_iff_le, hw0, hh0, and_self, not_true_eq_false,
      if_pos e4]
  have h4 : c.shapes_ ≠ [] → 0 ≤ rect.w → 0 ≤ rect.h → rect.w ≤ c.w_ → rect.h ≤ c.h_ →
      c.blit video blur rect = drawn := by
    intro hshapes hw0 hh0 hw hh
    exact gui2.canvas.blit_validated c video blur rect hshapes hrange hw0 hh0 hw hh
  refine ⟨h1, h2, h3, h4, ?_⟩
  by_cases hshapes : c.shapes_ = []
  · rw [h1 hshapes]
    simp [hshapes]
  · by_cases hneg : rect.w < 0 ∨ rect.h < 0
    · rw [h2 hshapes hneg]
      simp only [Except.error.injEq, exists_eq', true_iff]
      exact ⟨hshapes, Or.inl (by omega)⟩
    · by_cases hbig : rect.w > c.w_ ∨ rect.h > c.h_
      · rw [h3 hshapes (by omega) (by omega) hbig]
        simp only [Except.error.injEq, exists_eq', true_iff]
        exact ⟨hshapes, Or.inl (by omega)⟩
      · rw [h4 hshapes (by omega) (by omega) (by omega) (by omega)]
        constructor
        · intro h
          exact ⟨hshapes, Or.inr h⟩
        · rintro ⟨_, h | h⟩
          · omega
          · exact h

theorem blit_validation_errors_witness :
    (⟨0, 0, 10, 10⟩ : SDL_Rect).in_int_range ∧
      empty_canvas.blit example_video no_blur ⟨0, 0, 10, 10⟩ = .ok (empty_canvas, []) ∧
      (⟨0, 0, 331, 10⟩ : SDL_Rect).in_int_range ∧
      example_canvas.blit example_video no_blur ⟨0, 0, 331, 10⟩ =
        .error "Area to draw is larger than widget size" :=
  ⟨by decide,
    (blit_validation_errors empty_canvas example_video no_blur ⟨0, 0, 10, 10⟩
      (by decide)).1 (by simp [empty_canvas]),
    by decide,
    (blit_validation_errors example_canvas example_video no_blur ⟨0, 0, 331, 10⟩
      (by decide)).2.2.1 (by simp [example_canvas]) (by decide) (by decide) (by decide)⟩

/-- C4, evaluated at the widget `rect = {-1, 2, 330, 440}` on a 1000 x 1000 screen: the
rectangle shape `(10, 10, 20, 20)` is outlined at `{8, 12, 20, 20}`, not at
`{rect.x + 10, rect.y + 10, 20, 20} = {9, 12, 20, 20}`. -/
theorem blit_rectangle_offscreen_offset :
    Except.map Prod.snd (example_canvas.blit example_video no_blur ⟨-1, 2, 330, 440⟩) =
        .ok [draw_call.set_color ⟨255, 255, 255, 255⟩, draw_call.rect ⟨8, 12, 20, 20⟩] ∧
      (⟨8, 12, 20, 20⟩ : SDL_Rect) ≠ ⟨-1 + 10, 2 + 10, 20, 20⟩ := by
  refine ⟨?_, by decide⟩
  rfl

/-! ## Clip state -/

/-- C9: for every renderer state, a null renderer included, and every rect `c`, constructing
a `draw::clip_setter` with `c` and destroying it leaves `draw::get_clip` returning the value
it returned before the construction. -/
theorem clip_setter_restores_clip (video : CVideo) (c : SDL_Rect) :
    draw.get_clip
        ((draw.clip_setter.construct video c).1.destroy
          (draw.clip_setter.construct video c).2) =
      draw.get_clip video := by
  unfold draw.clip_setter.destroy draw.clip_setter.construct draw.force_clip draw.get_clip
  cases hr : video.get_renderer with
  | none => simp [hr]
  | some renderer =>
    simp only [SDL_RenderGetClipRect, SDL_RenderSetClipRect]
    by_cases h1 : renderer.clip_rect = sdl.empty_rect
    · by_cases h2 : video.draw_area = sdl.empty_rect
      · simp [h1, h2]
      · simp [h1, h2]
    · simp [h1]

theorem sdl.intersect_rects_contains (rect1 rect2 : SDL_Rect) (px py : Int) :
    (sdl.intersect_rects rect1 rect2).contains px py ↔
      rect1.contains px py ∧ rect2.contains px py := by
  unfold sdl.intersect_rects
  cases h : SDL_IntersectRect rect1 rect2 with
  | some res => exact SDL_IntersectRect_contains h px py
  | none =>
    have hn := (SDL_IntersectRect_eq_none_iff rect1 rect2).mp h
    constructor
    · intro hc
      simp only [sdl.empty_rect, SDL_Rect.contains] at hc
      omega
    · intro hc
      exact absurd ⟨px, py, hc⟩ hn

/-- C10: with `c = draw::get_clip()`, `draw::reduce_clip(clip)` remembers `c` and forces the
clip to `clip` when `c` is the all-zero rect and to the intersection of `clip` and `c`
otherwise, which is the clip rectangle of the renderer afterwards when there is a renderer;
the pixels of that intersection are exactly those common to `clip` and `c`. -/
theorem reduce_clip_sets_intersection (video : CVideo) (clip : SDL_Rect) :
    let c := draw.get_clip video
    let target := if c = sdl.empty_rect then clip else sdl.intersect_rects clip c
    (draw.reduce_clip video clip).2 = draw.force_clip video target ∧
      (draw.reduce_clip video clip).1.c_ = c ∧
      (draw.reduce_clip video clip).2.get_renderer =
        video.get_renderer.map (fun renderer => { renderer with clip_rect := target }) ∧
      (draw.reduce_clip video clip).2.draw_area = video.draw_area ∧
      (∀ px py, (sdl.intersect_rects clip c).contains px py ↔
        clip.contains px py ∧ c.contains px py) := by
  intro c target
  refine ⟨?_, ?_, ?_, ?_, fun px py => sdl.intersect_rects_contains clip c px py⟩
  rotate_left 3
  · unfold draw.reduce_clip draw.clip_setter.construct draw.force_clip
    simp only [c]
    split <;> cases hr : video.get_renderer <;> simp [hr]
  · unfold draw.reduce_clip draw.clip_setter.construct
    simp only [target, c]
    split <;> rfl
  · unfold draw.reduce_clip draw.clip_setter.construct
    simp only [c]
    split <;> rfl
  · unfold draw.reduce_clip draw.clip_setter.construct draw.force_clip
    simp only [target, c]
    split <;> cases hr : video.get_renderer <;> simp [hr, SDL_RenderSetClipRect]

/-! ## Image shapes -/

theorem to_int_to_unsigned {i : Int} (h : is_int i) : to_int (to_unsigned i) = i := by
  unfold to_int to_unsigned
  unfold is_int at h
  split <;> omega

/-- C15: for a non-empty image name whose texture is found, with `w` and `h` the values of
the width and height formulas as `int`, `image_shape::draw` raises a validation error when
`w` or `h` is negative, and otherwise passes the destination rect
`{draw_location.x + x, draw_location.y + y, (w if w != 0 else tw), (h if h != 0 else th)}`
to the primitive selected by the resize mode: `draw::tiled` uncentered for tile, centered for
tile_center, `draw::tiled_highres` for tile_highres, and `draw::flipped` or `draw::blit`,
by the mirror flag, for stretch, scale and scale_sharp. -/
theorem image_shape_draw_destination (get_texture : String → gui2.scale_quality → texture)
    (s : gui2.image_shape) (portion_to_draw draw_location : SDL_Rect)
    (vars : gui2.map_formula_callable) :
    let name := s.image_name_ vars
    let tex := get_texture name
      (if s.resize_mode_ = .stretch ∨ s.resize_mode_ = .scale then gui2.scale_quality.linear
       else gui2.scale_quality.nearest)
    let original : gui2.map_formula_callable :=
      (vars.add "image_original_width" (.of_int tex.w)).add "image_original_height"
        (.of_int tex.h)
    let w := to_int (s.w_ original)
    let h := to_int (s.h_ original)
    let sized : gui2.map_formula_callable :=
      (original.add "image_width" (.of_int (if w ≠ 0 then w else tex.w))).add "image_height"
        (.of_int (if h ≠ 0 then h else tex.h))
    let x := to_int (s.x_ sized)
    let y := to_int (s.y_ sized)
    let vars_after := s.actions_formula_
      ((sized.add "clip_x" (.of_unsigned (s.x_ sized % 2 ^ 32))).add "clip_y"
        (.of_unsigned (s.y_ sized % 2 ^ 32))) vars
    let dst : SDL_Rect :=
      ⟨draw_location.x + x, draw_location.y + y,
        if w ≠ 0 then w else tex.w, if h ≠ 0 then h else tex.h⟩
    name ≠ "" → tex.is_null = false →
      ((0 ≤ w ∧ 0 ≤ h) →
        s.draw get_texture portion_to_draw draw_location vars =
          .ok (vars_after,
            match s.resize_mode_ with
            | .tile => [draw_call.tiled tex dst false (s.mirror_ vars_after)]
            | .tile_center => [draw_call.tiled tex dst true (s.mirror_ vars_after)]
            | .tile_highres => [draw_call.tiled_highres tex dst false (s.mirror_ vars_after)]
            | .stretch | .scale | .scale_sharp =>
              if s.mirror_ vars_after then [draw_call.flipped tex dst true false]
              else [draw_call.blit tex dst none])) ∧
      ((w < 0 ∨ h < 0) →
        s.draw get_texture portion_to_draw draw_location vars =
          .error "Image doesn't fit on canvas.") := by
  intro name tex original w h sized x y vars_after dst hname htex
  have hwi : to_int (to_unsigned w) = w := to_int_to_unsigned (to_int_is_int _)
  have hhi : to_int (to_unsigned h) = h := to_int_to_unsigned (to_int_is_int _)
  have hw_def : to_int (s.w_ original % 2 ^ 32) = w := to_int_mod _
  have hh_def : to_int (s.h_ original % 2 ^ 32) = h := to_int_mod _
  have hx_def : to_int (s.x_ sized % 2 ^ 32) = x := to_int_mod _
  have hy_def : to_int (s.y_ sized % 2 ^ 32) = y := to_int_mod _
  have hdraw : s.draw get_texture portion_to_draw draw_location vars =
      match gui2.image_shape.dimension_validation (to_unsigned w) name "w" with
      | .error msg => .error msg
      | .ok _ =>
        match gui2.image_shape.dimension_validation (to_unsigned h) name "h" with
        | .error msg => .error msg
        | .ok _ =>
          .ok (vars_after,
            match s.resize_mode_ with
            | .tile => [draw_call.tiled tex dst false (s.mirror_ vars_after)]
            | .tile_center => [draw_call.tiled tex dst true (s.mirror_ vars_after)]
            | .tile_highres => [draw_call.tiled_highres tex dst false (s.mirror_ vars_after)]
            | .stretch | .scale | .scale_sharp =>
              if s.mirror_ vars_after then [draw_call.flipped tex dst true false]
              else [draw_call.blit tex dst none]) := by
    unfold gui2.image_shape.draw
    simp only []
    rw [if_neg hname, if_neg (by simpa using htex)]
    simp only [hw_def, hh_def, hx_def, hy_def]
    have e1 : (if w = 0 then tex.w else w) = (if w ≠ 0 then w else tex.w) := by
      by_cases h0 : w = 0 <;> simp [h0]
    have e2 : (if h = 0 then tex.h else h) = (if h ≠ 0 then h else tex.h) := by
      by_cases h0 : h = 0 <;> simp [h0]
    rw [e1, e2, Int.add_comm x, Int.add_comm y]
  rw [hdraw]
  unfold gui2.image_shape.dimension_validation
  simp only [hwi, hhi]
  constructor
  · rintro ⟨hw0, hh0⟩
    simp only [ge_iff_le, hw0, hh0, if_true]
  · intro hneg
    by_cases hw0 : 0 ≤ w
    · have hh0 : ¬ 0 ≤ h := by omega
      simp only [ge_iff_le, hw0, hh0, if_true, if_false]
    · simp only [ge_iff_le, hw0, if_false]

theorem image_shape_draw_destination_witness :
    (example_image 0 30 .scale).image_name_ [] ≠ "" ∧
      (example_get_texture "misc/selection.png" gui2.scale_quality.linear).is_null = false ∧
      (example_image 0 30 .scale).draw example_get_texture ⟨0, 0, 100, 100⟩ ⟨200, 300, 100, 100⟩
          [] =
        .ok ([], [draw_call.blit ⟨some 1, 64, 48⟩ ⟨205, 307, 64, 30⟩ none]) :=
  ⟨by decide, by decide,
    ((image_shape_draw_destination example_get_texture (example_image 0 30 .scale)
      ⟨0, 0, 100, 100⟩ ⟨200, 300, 100, 100⟩ [] (by decide) (by decide)).1
        (by decide)).trans (by rfl)⟩

/-- C16: `image_shape::get_resize_mode` returns a mode for every string: tile, tile_center,
tile_highres, stretch and scale_sharp for exactly the strings of those names, and scale for
every other string, the empty string and "scale" included. -/
theorem get_resize_mode_falls_back_to_scale (name : String) :
    (gui2.image_shape.get_resize_mode name = .tile ↔ name = "tile") ∧
      (gui2.image_shape.get_resize_mode name = .tile_center ↔ name = "tile_center") ∧
      (gui2.image_shape.get_resize_mode name = .tile_highres ↔ name = "tile_highres") ∧
      (gui2.image_shape.get_resize_mode name = .stretch ↔ name = "stretch") ∧
      (gui2.image_shape.get_resize_mode name = .scale_sharp ↔ name = "scale_sharp") ∧
      (gui2.image_shape.get_resize_mode name = .scale ↔
        (name ≠ "tile" ∧ name ≠ "tile_center" ∧ name ≠ "tile_highres" ∧ name ≠ "stretch" ∧
          name ≠ "scale_sharp")) ∧
      gui2.image_shape.get_resize_mode "" = .scale ∧
      gui2.image_shape.get_resize_mode "scale" = .scale := by
  refine ⟨?_, ?_, ?_, ?_, ?_, ?_, by decide, by decide⟩ <;>
    unfold gui2.image_shape.get_resize_mode <;>
    split_ifs with h1 h2 h3 h4 h5 <;> simp_all

/-! ## Octants of the circle -/

theorem draw.push_back_if_eq_append (c : Bool) (points : List SDL_Point) (p : SDL_Point) :
    draw.push_back_if c points p = points ++ (if c then [p] else []) := by
  unfold draw.push_back_if
  cases c <;> simp

/-- The loop of `draw::circle` appends, state by state, the points of the selected
octants. -/
theorem draw.circle_loop_eq_states (cx cy : Int) (octants : Nat) :
    ∀ (n : Nat) (d x y : Int) (points : List SDL_Point), (x - y + 1).toNat = n →
      draw.circle_loop cx cy octants d x y points =
        points ++ (draw.circle_states d x y).flatMap
          (fun s => draw.octant_points cx cy octants s.1 s.2) := by
  intro n
  induction n using Nat.strong_induction_on with
  | _ n ih =>
    intro d x y points hn
    rw [draw.circle_loop, draw.circle_states]
    split
    · rename_i hyx
      simp only [draw.push_back_if_eq_append]
      split
      · rename_i hpos
        rw [ih ((x - 1 - (y + 1) + 1).toNat) (by omega) _ _ _ _ rfl]
        simp only [List.flatMap_cons, draw.octant_points, List.append_assoc]
      · rename_i hneg
        rw [ih ((x - (y + 1) + 1).toNat) (by omega) _ _ _ _ rfl]
        simp only [List.flatMap_cons, draw.octant_points, List.append_assoc]
    · simp

/-- Every state of the loop of `draw::circle` has `0 ≤ y ≤ x`. -/
theorem draw.circle_states_octant :
    ∀ (n : Nat) (d x y : Int), (x - y + 1).toNat = n → 0 ≤ y →
      ∀ s ∈ draw.circle_states d x y, 0 ≤ s.2 ∧ s.2 ≤ s.1 := by
  intro n
  induction n using Nat.strong_induction_on with
  | _ n ih =>
    intro d x y hn hy s hs
    rw [draw.circle_states] at hs
    split at hs
    · rename_i hyx
      rcases List.mem_cons.mp hs with rfl | hs
      · exact ⟨hy, by omega⟩
      · simp only [] at hs
        split at hs
        · exact ih _ (by omega) _ _ _ rfl (by omega) s hs
        · exact ih _ (by omega) _ _ _ rfl (by omega) s hs
    · simp at hs

theorem draw.mem_circle_points (cx cy r : Int) (octants : Nat) (p : SDL_Point) :
    p ∈ draw.circle_points cx cy r octants ↔
      ∃ s ∈ draw.circle_states (-r) r 0, p ∈ draw.octant_points cx cy octants s.1 s.2 := by
  unfold draw.circle_points
  rw [draw.circle_loop_eq_states cx cy octants _ _ _ _ _ rfl]
  simp only [List.nil_append, List.mem_flatMap]

theorem draw.mem_octant_points (cx cy : Int) (octants : Nat) (x y : Int) (p : SDL_Point) :
    p ∈ draw.octant_points cx cy octants x y ↔
      (octants &&& 0x04 ≠ 0 ∧ p = ⟨cx + x, cy + y⟩) ∨
      (octants &&& 0x02 ≠ 0 ∧ p = ⟨cx + x, cy - y⟩) ∨
      (octants &&& 0x20 ≠ 0 ∧ p = ⟨cx - x, cy + y⟩) ∨
      (octants &&& 0x40 ≠ 0 ∧ p = ⟨cx - x, cy - y⟩) ∨
      (octants &&& 0x08 ≠ 0 ∧ p = ⟨cx + y, cy + x⟩) ∨
      (octants &&& 0x01 ≠ 0 ∧ p = ⟨cx + y, cy - x⟩) ∨
      (octants &&& 0x10 ≠ 0 ∧ p = ⟨cx - y, cy + x⟩) ∨
      (octants &&& 0x80 ≠ 0 ∧ p = ⟨cx - y, cy - x⟩) := by
  unfold draw.octant_points
  simp only [List.mem_append, List.mem_ite_nil_right, List.mem_singleton, bne_iff_ne, ne_eq,
    or_assoc]

/-- C12: the octant mask of `draw::circle` selects 45-degree sectors.  With mask 0 no point
is plotted; the points plotted for a mask are those plotted for its single bits; and for
each single bit every plotted offset `(dx, dy)` from the centre lies in the sector of that
bit: 0x01: `0 ≤ dx ≤ -dy`; 0x02: `0 ≤ -dy ≤ dx`; 0x04: `0 ≤ dy ≤ dx`; 0x08: `0 ≤ dx ≤ dy`;
0x10: `0 ≤ -dx ≤ dy`; 0x20: `0 ≤ dy ≤ -dx`; 0x40: `0 ≤ -dy ≤ -dx`; 0x80: `0 ≤ -dx ≤ -dy`. -/
theorem circle_octants_select_sectors (cx cy r : Int) :
    (∀ octants, draw.circle cx cy r octants =
        [draw_call.points (draw.circle_points cx cy r octants)]) ∧
      draw.circle_points cx cy r 0 = [] ∧
      (∀ octants p, p ∈ draw.circle_points cx cy r octants ↔
        ∃ bit ∈ [0x01, 0x02, 0x04, 0x08, 0x10, 0x20, 0x40, 0x80],
          octants &&& bit ≠ 0 ∧ p ∈ draw.circle_points cx cy r bit) ∧
      (∀ p ∈ draw.circle_points cx cy r 0x01, 0 ≤ p.x - cx ∧ p.x - cx ≤ -(p.y - cy)) ∧
      (∀ p ∈ draw.circle_points cx cy r 0x02, 0 ≤ -(p.y - cy) ∧ -(p.y - cy) ≤ p.x - cx) ∧
      (∀ p ∈ draw.circle_points cx cy r 0x04, 0 ≤ p.y - cy ∧ p.y - cy ≤ p.x - cx) ∧
      (∀ p ∈ draw.circle_points cx cy r 0x08, 0 ≤ p.x - cx ∧ p.x - cx ≤ p.y - cy) ∧
      (∀ p ∈ draw.circle_points cx cy r 0x10, 0 ≤ -(p.x - cx) ∧ -(p.x - cx) ≤ p.y - cy) ∧
      (∀ p ∈ draw.circle_points cx cy r 0x20, 0 ≤ p.y - cy ∧ p.y - cy ≤ -(p.x - cx)) ∧
      (∀ p ∈ draw.circle_points cx cy r 0x40,
        0 ≤ -(p.y - cy) ∧ -(p.y - cy) ≤ -(p.x - cx)) ∧
      (∀ p ∈ draw.circle_points cx cy r 0x80,
        0 ≤ -(p.x - cx) ∧ -(p.x - cx) ≤ -(p.y - cy)) := by
  have hstate : ∀ s ∈ draw.circle_states (-r) r 0, 0 ≤ s.2 ∧ s.2 ≤ s.1 :=
    draw.circle_states_octant _ (-r) r 0 rfl le_rfl
  refine ⟨fun _ => rfl, ?_, ?_, ?_, ?_, ?_, ?_, ?_, ?_, ?_, ?_⟩
  · rw [List.eq_nil_iff_forall_not_mem]
    intro p hp
    obtain ⟨s, _, hs⟩ := (draw.mem_circle_points cx cy r 0 p).mp hp
    rw [draw.mem_octant_points] at hs
    simp at hs
  · intro octants p
    constructor
    · intro hp
      obtain ⟨s, hs, hps⟩ := (draw.mem_circle_points cx cy r octants p).mp hp
      rw [draw.mem_octant_points] at hps
      rcases hps with ⟨hb, rfl⟩ | ⟨hb, rfl⟩ | ⟨hb, rfl⟩ | ⟨hb, rfl⟩ | ⟨hb, rfl⟩ | ⟨hb, rfl⟩ |
        ⟨hb, rfl⟩ | ⟨hb, rfl⟩
      · exact ⟨0x04, by simp, hb, (draw.mem_circle_points _ _ _ _ _).mpr
          ⟨s, hs, by rw [draw.mem_octant_points]; simp +decide⟩⟩
      · exact ⟨0x02, by simp, hb, (draw.mem_circle_points _ _ _ _ _).mpr
          ⟨s, hs, by rw [draw.mem_octant_points]; simp +decide⟩⟩
      · exact ⟨0x20, by simp, hb, (draw.mem_circle_points _ _ _ _ _).mpr
          ⟨s, hs, by rw [draw.mem_octant_points]; simp +decide⟩⟩
      · exact ⟨0x40, by simp, hb, (draw.mem_circle_points _ _ _ _ _).mpr
          ⟨s, hs, by rw [draw.mem_octant_points]; simp +decide⟩⟩
      · exact ⟨0x08, by simp, hb, (draw.mem_circle_points _ _ _ _ _).mpr
          ⟨s, hs, by rw [draw.mem_octant_points]; simp +decide⟩⟩
      · exact ⟨0x01, by simp, hb, (draw.mem_circle_points _ _ _ _ _).mpr
          ⟨s, hs, by rw [draw.mem_octant_points]; simp +decide⟩⟩
      · exact ⟨0x10, by simp, hb, (draw.mem_circle_points _ _ _ _ _).mpr
          ⟨s, hs, by rw [draw.mem_octant_points]; simp +decide⟩⟩
      · exact ⟨0x80, by simp, hb, (draw.mem_circle_points _ _ _ _ _).mpr
          ⟨s, hs, by rw [draw.mem_octant_points]; simp +decide⟩⟩
    · rintro ⟨bit, hbit, hb, hp⟩
      obtain ⟨s, hs, hps⟩ := (draw.mem_circle_points cx cy r bit p).mp hp
      refine (draw.mem_circle_points _ _ _ _ _).mpr ⟨s, hs, ?_⟩
      rw [draw.mem_octant_points] at hps ⊢
      simp only [List.mem_cons, List.mem_singleton, List.not_mem_nil, or_false] at hbit
      rcases hbit with rfl | rfl | rfl | rfl | rfl | rfl | rfl | rfl <;>
        simp +decide at hps <;> subst hps
      · exact Or.inr (Or.inr (Or.inr (Or.inr (Or.inr (Or.inl ⟨hb, rfl⟩)))))
      · exact Or.inr (Or.inl ⟨hb, rfl⟩)
      · exact Or.inl ⟨hb, rfl⟩
      · exact Or.inr (Or.inr (Or.inr (Or.inr (Or.inl ⟨hb, rfl⟩))))
      · exact Or.inr (Or.inr (Or.inr (Or.inr (Or.inr (Or.inr (Or.inl ⟨hb, rfl⟩))))))
      · exact Or.inr (Or.inr (Or.inl ⟨hb, rfl⟩))
      · exact Or.inr (Or.inr (Or.inr (Or.inl ⟨hb, rfl⟩)))
      · exact Or.inr (Or.inr (Or.inr (Or.inr (Or.inr (Or.inr (Or.inr ⟨hb, rfl⟩))))))
  all_goals
    intro p hp
    obtain ⟨s, hs, hps⟩ := (draw.mem_circle_points _ _ _ _ _).mp hp
    have hst := hstate s hs
    rw [draw.mem_octant_points] at hps
    simp +decide at hps
    subst hps
    simp only []
    omega

/-! ## The tiles of `draw::tiled` -/

theorem draw.xor_odd_succ (b : Bool) (i : Nat) :
    xor b (decide ((i + 1) % 2 = 1)) = xor (!b) (decide (i % 2 = 1)) := by
  rcases Nat.mod_two_eq_zero_or_one i with h | h <;>
    have h2 : (i + 1) % 2 = (i % 2 + 1) % 2 := by omega
  · rw [h2, h]; cases b <;> simp
  · rw [h2, h]; cases b <;> simp

/-- One row of `draw::tiled`: when `n` is the number of tiles that start left of `xend`, the
inner loop returns with any fuel above `n`, having issued those `n` tiles in order. -/
theorem draw.tiled_row_eq (tex : texture) (mirrored : Bool) (xend : Int) (vf : Bool) :
    ∀ (n fuel : Nat) (t : SDL_Rect) (hf : Bool) (calls : List draw_call),
      n + 1 ≤ fuel → (∀ i : Nat, i < n → t.x + i * t.w < xend) → xend ≤ t.x + n * t.w →
      draw.tiled_row fuel tex mirrored xend vf t hf calls =
        some ({ t with x := t.x + n * t.w },
          calls ++ (List.range n).map fun (i : Nat) =>
            if mirrored then
              draw_call.flipped tex ⟨t.x + i * t.w, t.y, t.w, t.h⟩
                (xor hf (decide (i % 2 = 1))) vf
            else draw_call.blit tex ⟨t.x + i * t.w, t.y, t.w, t.h⟩ none) := by
  intro n
  induction n with
  | zero =>
    intro fuel t hf calls hfuel _ hend
    obtain ⟨fuel, rfl⟩ : ∃ f, fuel = f + 1 := ⟨fuel - 1, by omega⟩
    rw [draw.tiled_row]
    have hx : ¬ t.x < xend := by
      simp only [Nat.cast_zero, zero_mul, add_zero] at hend
      omega
    rw [if_neg hx]
    simp
  | succ n ih =>
    intro fuel t hf calls hfuel hlt hend
    obtain ⟨fuel, rfl⟩ : ∃ f, fuel = f + 1 := ⟨fuel - 1, by omega⟩
    rw [draw.tiled_row]
    have hx : t.x < xend := by
      have := hlt 0 (by omega)
      simpa using this
    rw [if_pos hx]
    simp only []
    rw [ih fuel { t with x := t.x + t.w } (!hf) _ (by omega) ?_ ?_]
    · simp only [List.range_succ_eq_map, List.map_cons, List.map_map, Nat.cast_zero, zero_mul,
        add_zero, Nat.zero_mod, zero_ne_one, decide_False, Bool.xor_false]
      have e1 : t.x + t.w + (n : Int) * t.w = t.x + ((n + 1 : Nat) : Int) * t.w := by
        push_cast; ring
      have e2 : ∀ i : Nat, t.x + t.w + (i : Int) * t.w = t.x + ((i + 1 : Nat) : Int) * t.w := by
        intro i; push_cast; ring
      cases mirrored
      · simp only [Bool.false_eq_true, if_false, List.append_assoc, List.singleton_append,
          e1, e2]
        rfl
      · simp only [if_true, List.append_assoc, List.singleton_append, e1, e2]
        have e3 : ((fun (i : Nat) =>
            draw_call.flipped tex ⟨t.x + (i : Int) * t.w, t.y, t.w, t.h⟩
              (xor hf (decide (i % 2 = 1))) vf) ∘ Nat.succ) =
            fun (i : Nat) => draw_call.flipped tex ⟨t.x + ((i + 1 : Nat) : Int) * t.w, t.y, t.w, t.h⟩
              (xor (!hf) (decide (i % 2 = 1))) vf := by
          funext i
          simp only [Function.comp, Nat.succ_eq_add_one, draw.xor_odd_succ]
        rw [e3]
    · intro i hi
      have := hlt (i + 1) (by omega)
      simp only [] at this ⊢
      push_cast at this
      linarith
    · simp only []
      push_cast at hend
      linarith

/-- The rows of `draw::tiled`: when every row has `n` tiles and `m` rows start above the
bottom edge, the outer loop returns with any fuel above `n + m`, having issued the rows in
order. -/
theorem draw.tiled_rows_eq (tex : texture) (mirrored : Bool) (dst : SDL_Rect) (xoff w h : Int)
    (n : Nat) (hlt : ∀ i : Nat, i < n → dst.x - xoff + i * w < dst.x + dst.w)
    (hend : dst.x + dst.w ≤ dst.x - xoff + n * w) :
    ∀ (m fuel : Nat) (t : SDL_Rect) (vf : Bool) (calls : List draw_call),
      n + m + 1 ≤ fuel → t.w = w → t.h = h →
      (∀ j : Nat, j < m → t.y + j * h < dst.y + dst.h) → dst.y + dst.h ≤ t.y + m * h →
      draw.tiled_rows fuel tex mirrored dst xoff t vf calls =
        some (calls ++ (List.range m).flatMap fun (j : Nat) =>
          (List.range n).map fun (i : Nat) =>
            if mirrored then
              draw_call.flipped tex ⟨dst.x - xoff + i * w, t.y + j * h, w, h⟩
                (decide (i % 2 = 1)) (xor vf (decide (j % 2 = 1)))
            else draw_call.blit tex ⟨dst.x - xoff + i * w, t.y + j * h, w, h⟩ none) := by
  intro m
  induction m with
  | zero =>
    intro fuel t vf calls hfuel _ _ _ hyend
    obtain ⟨fuel, rfl⟩ : ∃ f, fuel = f + 1 := ⟨fuel - 1, by omega⟩
    rw [draw.tiled_rows]
    have hy : ¬ t.y < dst.y + dst.h := by
      simp only [Nat.cast_zero, zero_mul, add_zero] at hyend
      omega
    rw [if_neg hy]
    simp
  | succ m ih =>
    intro fuel t vf calls hfuel htw hth hylt hyend
    obtain ⟨fuel, rfl⟩ : ∃ f, fuel = f + 1 := ⟨fuel - 1, by omega⟩
    rw [draw.tiled_rows]
    have hy : t.y < dst.y + dst.h := by
      have := hylt 0 (by omega)
      simpa using this
    rw [if_pos hy]
    simp only []
    rw [draw.tiled_row_eq tex mirrored (dst.x + dst.w) vf n fuel { t with x := dst.x - xoff }
      false calls (by omega) (by simpa [htw] using hlt) (by simpa [htw] using hend)]
    simp only []
    rw [ih fuel ⟨dst.x - xoff + n * t.w, t.y + t.h, t.w, t.h⟩ (!vf) _ (by omega) htw hth ?_ ?_]
    · simp only [List.range_succ_eq_map, List.flatMap_cons, List.flatMap_map, htw, hth,
        Nat.cast_zero, zero_mul, add_zero, Nat.zero_mod, zero_ne_one, decide_False,
        Bool.xor_false, Bool.false_bne, List.append_assoc]
      have e2 : ∀ j : Nat, t.y + h + (j : Int) * h = t.y + ((j + 1 : Nat) : Int) * h := by
        intro j; push_cast; ring
      simp only [e2, draw.xor_odd_succ, Function.comp, Nat.succ_eq_add_one]
    · intro j hj
      have := hylt (j + 1) (by omega)
      simp only [hth] at this ⊢
      push_cast at this
      linarith
    · simp only [hth]
      push_cast at hyend
      linarith

/-- The count of the spec is the number of tiles the loops run through: tile `i` starts
inside the extent exactly for `i` below the count. -/
theorem draw.spec_tile_count_bounds (extent size : Int) (hsize : 0 < size) :
    (∀ i : Nat, i < draw.spec_tile_count extent size → (i : Int) * size < extent) ∧
      extent ≤ (draw.spec_tile_count extent size : Int) * size := by
  unfold draw.spec_tile_count
  split
  · rename_i hext
    refine ⟨fun i hi => absurd hi (by omega), ?_⟩
    simp only [Nat.cast_zero, zero_mul]
    exact hext
  · rename_i hext
    have hdiv := Int.ediv_add_emod (extent + size - 1) size
    have hr0 := Int.emod_nonneg (extent + size - 1) (ne_of_gt hsize)
    have hr1 := Int.emod_lt_of_pos (extent + size - 1) hsize
    have hq : 0 ≤ (extent + size - 1) / size := Int.ediv_nonneg (by omega) (le_of_lt hsize)
    have hcast : (((extent + size - 1) / size).toNat : Int) = (extent + size - 1) / size :=
      Int.toNat_of_nonneg hq
    rw [hcast]
    constructor
    · intro i hi
      have hi2 : (i : Int) ≤ (extent + size - 1) / size - 1 := by omega
      have hmul : (i : Int) * size ≤ ((extent + size - 1) / size - 1) * size :=
        mul_le_mul_of_nonneg_right hi2 (le_of_lt hsize)
      nlinarith
    · nlinarith

theorem draw.spec_tile_count_eq_ceil (extent size : Int) (hsize : 0 < size) (hext : 0 < extent) :
    (draw.spec_tile_count extent size : Int) = ⌈(extent : ℚ) / (size : ℚ)⌉ := by
  obtain ⟨hlt, hle⟩ := draw.spec_tile_count_bounds extent size hsize
  have hsq : (0 : ℚ) < (size : ℚ) := by exact_mod_cast hsize
  symm
  rw [Int.ceil_eq_iff]
  have hpos : 0 < draw.spec_tile_count extent size := by
    by_contra h0
    have : draw.spec_tile_count extent size = 0 := by omega
    rw [this] at hle
    simp at hle
    omega
  constructor
  · have h1 := hlt (draw.spec_tile_count extent size - 1) (by omega)
    rw [lt_div_iff₀ hsq]
    have h2 : (((draw.spec_tile_count extent size - 1 : Nat) : Int) : ℚ) * (size : ℚ) <
        (extent : ℚ) := by exact_mod_cast h1
    have h3 : (((draw.spec_tile_count extent size - 1 : Nat) : Int) : ℚ) =
        ((draw.spec_tile_count extent size : Int) : ℚ) - 1 := by
      push_cast [Nat.cast_sub hpos]
      ring
    rw [h3] at h2
    exact h2
  · rw [div_le_iff₀ hsq]
    exact_mod_cast hle

theorem draw.length_spec_tile_grid (tex : texture) (mirrored : Bool) (x0 y0 : Int)
    (cols rows : Nat) :
    (draw.spec_tile_grid tex mirrored x0 y0 cols rows).length = cols * rows := by
  unfold draw.spec_tile_grid
  induction rows with
  | zero => simp
  | succ rows ih =>
    rw [List.range_succ, List.flatMap_append, List.length_append, ih]
    simp [Nat.mul_succ]

/-- What `draw::tiled` issues for a texture of positive size, centered or not: with fuel
above the number of columns plus the number of rows it returns the renderer state restored
by the clip setter and the tiling of the spec from the corner `(dst.x - xoff, dst.y - yoff)`. -/
theorem draw.tiled_eq_grid (video : CVideo) (tex : texture) (dst : SDL_Rect)
    (centered mirrored : Bool) (hnull : tex.is_null = false) (hw : 0 < tex.w) (hh : 0 < tex.h)
    (k : Nat) :
    draw.tiled
        (draw.spec_tile_count (dst.w + (if centered then (dst.w - tex.w).tdiv 2 else 0)) tex.w +
          draw.spec_tile_count (dst.h + (if centered then (dst.h - tex.h).tdiv 2 else 0)) tex.h +
          1 + k)
        video tex dst centered mirrored =
      some ((draw.reduce_clip video dst).1.destroy (draw.reduce_clip video dst).2,
        draw.spec_tile_grid tex mirrored
          (dst.x - (if centered then (dst.w - tex.w).tdiv 2 else 0))
          (dst.y - (if centered then (dst.h - tex.h).tdiv 2 else 0))
          (draw.spec_tile_count (dst.w + (if centered then (dst.w - tex.w).tdiv 2 else 0)) tex.w)
          (draw.spec_tile_count (dst.h + (if centered then (dst.h - tex.h).tdiv 2 else 0))
            tex.h)) := by
  generalize hxoff : (if centered then (dst.w - tex.w).tdiv 2 else 0) = xoff
  generalize hyoff : (if centered then (dst.h - tex.h).tdiv 2 else 0) = yoff
  obtain ⟨hclt, hcend⟩ := draw.spec_tile_count_bounds (dst.w + xoff) tex.w hw
  obtain ⟨hrlt, hrend⟩ := draw.spec_tile_count_bounds (dst.h + yoff) tex.h hh
  unfold draw.tiled
  rw [hnull]
  simp only [Bool.false_eq_true, if_false, hxoff, hyoff]
  rw [draw.tiled_rows_eq tex mirrored dst xoff tex.w tex.h
    (draw.spec_tile_count (dst.w + xoff) tex.w) ?_ ?_
    (draw.spec_tile_count (dst.h + yoff) tex.h) _ _ false [] (by omega) rfl rfl ?_ ?_]
  · simp only [List.nil_append, Bool.false_bne, draw.spec_tile_grid]
  · intro i hi
    have := hclt i hi
    linarith
  · linarith
  · intro j hj
    have := hrlt j hj
    simp only []
    linarith
  · simp only []
    linarith

theorem draw.spec_tile_grid_get (tex : texture) (mirrored : Bool) (x0 y0 : Int) (cols : Nat)
    (i : Nat) (hi : i < cols) :
    ∀ (rows j : Nat), j < rows →
      (draw.spec_tile_grid tex mirrored x0 y0 cols rows)[j * cols + i]? =
        some (if mirrored then
            draw_call.flipped tex ⟨x0 + i * tex.w, y0 + j * tex.h, tex.w, tex.h⟩
              (decide (i % 2 = 1)) (decide (j % 2 = 1))
          else draw_call.blit tex ⟨x0 + i * tex.w, y0 + j * tex.h, tex.w, tex.h⟩ none) := by
  intro rows
  induction rows with
  | zero => intro j hj; omega
  | succ rows ih =>
    intro j hj
    have hlen := draw.length_spec_tile_grid tex mirrored x0 y0 cols rows
    have hsplit : draw.spec_tile_grid tex mirrored x0 y0 cols (rows + 1) =
        draw.spec_tile_grid tex mirrored x0 y0 cols rows ++
          (List.range cols).map fun (i : Nat) =>
            if mirrored then
              draw_call.flipped tex ⟨x0 + i * tex.w, y0 + rows * tex.h, tex.w, tex.h⟩
                (decide (i % 2 = 1)) (decide (rows % 2 = 1))
            else draw_call.blit tex ⟨x0 + i * tex.w, y0 + rows * tex.h, tex.w, tex.h⟩ none := by
      unfold draw.spec_tile_grid
      rw [List.range_succ, List.flatMap_append]
      simp
    rw [hsplit]
    by_cases hjr : j < rows
    · have hidx : j * cols + i < cols * rows := by
        have h1 : (j + 1) * cols ≤ rows * cols := Nat.mul_le_mul_right cols hjr
        have h2 : (j + 1) * cols = j * cols + cols := by ring
        have h3 : rows * cols = cols * rows := Nat.mul_comm _ _
        omega
      rw [List.getElem?_append_left (by rw [hlen]; exact hidx)]
      exact ih j hjr
    · have hj2 : j = rows := by omega
      subst hj2
      rw [List.getElem?_append_right (by rw [hlen, Nat.mul_comm cols j]; omega)]
      rw [hlen, Nat.mul_comm cols j, Nat.add_sub_cancel_left]
      simp [hi]

/-- C13: with `centered = false` and a texture of positive size, `draw::tiled` terminates,
with any fuel above the number of columns plus the number of rows, and issues
`ceil(dst.w / tw) * ceil(dst.h / th)` blits, none when `dst.w ≤ 0` or `dst.h ≤ 0`, in
row-major order, the tile in column `i` and row `j` being `{dst.x + i*tw, dst.y + j*th, tw,
th}`. -/
theorem tiled_uncentered_row_major (video : CVideo) (tex : texture) (dst : SDL_Rect)
    (mirrored : Bool) (hnull : tex.is_null = false) (hw : 0 < tex.w) (hh : 0 < tex.h) :
    let cols := draw.spec_tile_count dst.w tex.w
    let rows := draw.spec_tile_count dst.h tex.h
    let tiles := draw.spec_tile_grid tex mirrored dst.x dst.y cols rows
    (∀ k, draw.tiled (cols + rows + 1 + k) video tex dst false mirrored =
        some ((draw.reduce_clip video dst).1.destroy (draw.reduce_clip video dst).2, tiles)) ∧
      tiles.length = cols * rows ∧
      (0 < dst.w → (cols : Int) = ⌈(dst.w : ℚ) / (tex.w : ℚ)⌉) ∧
      (0 < dst.h → (rows : Int) = ⌈(dst.h : ℚ) / (tex.h : ℚ)⌉) ∧
      ((dst.w ≤ 0 ∨ dst.h ≤ 0) → tiles = []) ∧
      (∀ i j, i < cols → j < rows →
        ∃ call, tiles[j * cols + i]? = some call ∧
          (call = draw_call.blit tex ⟨dst.x + i * tex.w, dst.y + j * tex.h, tex.w, tex.h⟩ none ∨
            ∃ flip_h flip_v, call =
              draw_call.flipped tex ⟨dst.x + i * tex.w, dst.y + j * tex.h, tex.w, tex.h⟩
                flip_h flip_v)) := by
  intro cols rows tiles
  have hlen : tiles.length = cols * rows := draw.length_spec_tile_grid _ _ _ _ _ _
  refine ⟨?_, hlen, ?_, ?_, ?_, ?_⟩
  · intro k
    have h := draw.tiled_eq_grid video tex dst false mirrored hnull hw hh k
    simpa using h
  · exact draw.spec_tile_count_eq_ceil dst.w tex.w hw
  · exact draw.spec_tile_count_eq_ceil dst.h tex.h hh
  · intro hempty
    apply List.eq_nil_of_length_eq_zero
    rw [hlen]
    have hc : dst.w ≤ 0 → cols = 0 := by
      intro h; simp only [cols, draw.spec_tile_count, if_pos h]
    have hr : dst.h ≤ 0 → rows = 0 := by
      intro h; simp only [rows, draw.spec_tile_count, if_pos h]
    rcases hempty with h | h
    · rw [hc h, Nat.zero_mul]
    · rw [hr h, Nat.mul_zero]
  · intro i j hi hj
    refine ⟨_, draw.spec_tile_grid_get tex mirrored dst.x dst.y cols i hi rows j hj, ?_⟩
    cases mirrored
    · exact Or.inl rfl
    · exact Or.inr ⟨_, _, rfl⟩

theorem tiled_uncentered_row_major_witness :
    (⟨some 1, 10, 10⟩ : texture).is_null = false ∧ (0 : Int) < 10 ∧
      draw.tiled 6 example_video ⟨some 1, 10, 10⟩ ⟨0, 0, 25, 14⟩ false false =
        some (⟨some ⟨⟨0, 0, 1000, 1000⟩⟩, ⟨0, 0, 1000, 1000⟩⟩,
          [draw_call.blit ⟨some 1, 10, 10⟩ ⟨0, 0, 10, 10⟩ none,
           draw_call.blit ⟨some 1, 10, 10⟩ ⟨10, 0, 10, 10⟩ none,
           draw_call.blit ⟨some 1, 10, 10⟩ ⟨20, 0, 10, 10⟩ none,
           draw_call.blit ⟨some 1, 10, 10⟩ ⟨0, 10, 10, 10⟩ none,
           draw_call.blit ⟨some 1, 10, 10⟩ ⟨10, 10, 10, 10⟩ none,
           draw_call.blit ⟨some 1, 10, 10⟩ ⟨20, 10, 10, 10⟩ none]) :=
  ⟨by decide, by decide,
    ((tiled_uncentered_row_major example_video ⟨some 1, 10, 10⟩ ⟨0, 0, 25, 14⟩ false
      (by decide) (by decide) (by decide)).1 0).trans (by decide)⟩

/-- C14: for a texture of positive size, centered or not, `draw::tiled` in mirrored mode
draws the tile in column `i` and row `j`, counted from 0 in the order blitted, flipped
horizontally if and only if `i` is odd and flipped vertically if and only if `j` is odd, the
flags of `get_flip` being set accordingly; with `mirrored = false` every tile is a plain
blit. -/
theorem tiled_mirrored_alternates (video : CVideo) (tex : texture) (dst : SDL_Rect)
    (centered : Bool) (hnull : tex.is_null = false) (hw : 0 < tex.w) (hh : 0 < tex.h) :
    let xoff := if centered then (dst.w - tex.w).tdiv 2 else 0
    let yoff := if centered then (dst.h - tex.h).tdiv 2 else 0
    let cols := draw.spec_tile_count (dst.w + xoff) tex.w
    let rows := draw.spec_tile_count (dst.h + yoff) tex.h
    (∀ mirrored k, ∃ tiles,
        draw.tiled (cols + rows + 1 + k) video tex dst centered mirrored =
          some ((draw.reduce_clip video dst).1.destroy (draw.reduce_clip video dst).2, tiles) ∧
        tiles.length = cols * rows ∧
        ∀ i j, i < cols → j < rows →
          tiles[j * cols + i]? = some
            (if mirrored then
              draw_call.flipped tex
                ⟨dst.x - xoff + i * tex.w, dst.y - yoff + j * tex.h, tex.w, tex.h⟩
                (decide (i % 2 = 1)) (decide (j % 2 = 1))
            else
              draw_call.blit tex
                ⟨dst.x - xoff + i * tex.w, dst.y - yoff + j * tex.h, tex.w, tex.h⟩ none)) ∧
      (∀ flip_h flip_v,
        (draw.get_flip flip_h flip_v &&& SDL_FLIP_HORIZONTAL ≠ 0 ↔ flip_h = true) ∧
        (draw.get_flip flip_h flip_v &&& SDL_FLIP_VERTICAL ≠ 0 ↔ flip_v = true)) := by
  intro xoff yoff cols rows
  constructor
  · intro mirrored k
    refine ⟨_, draw.tiled_eq_grid video tex dst centered mirrored hnull hw hh k,
      draw.length_spec_tile_grid _ _ _ _ _ _, ?_⟩
    intro i j hi hj
    exact draw.spec_tile_grid_get tex mirrored _ _ _ i hi _ j hj
  · intro flip_h flip_v
    cases flip_h <;> cases flip_v <;> decide

theorem tiled_mirrored_alternates_witness :
    (⟨some 1, 10, 10⟩ : texture).is_null = false ∧ (0 : Int) < 10 ∧
      ∃ tiles, draw.tiled 7 example_video ⟨some 1, 10, 10⟩ ⟨0, 0, 25, 14⟩ true true =
          some (⟨some ⟨⟨0, 0, 1000, 1000⟩⟩, ⟨0, 0, 1000, 1000⟩⟩, tiles) ∧
        tiles.length = 8 ∧
        tiles[1]? = some (draw_call.flipped ⟨some 1, 10, 10⟩ ⟨3, -2, 10, 10⟩ true false) ∧
        tiles[4]? = some (draw_call.flipped ⟨some 1, 10, 10⟩ ⟨-7, 8, 10, 10⟩ false true) :=
  ⟨by decide, by decide,
    ((tiled_mirrored_alternates example_video ⟨some 1, 10, 10⟩ ⟨0, 0, 25, 14⟩ true
      (by decide) (by decide) (by decide)).1 true 0).elim
      fun tiles ht => ⟨tiles, ht.1, ht.2.1, ht.2.2 1 0 (by decide) (by decide),
        ht.2.2 0 1 (by decide) (by decide)⟩⟩

/-! ## Fill and border of a rectangle shape -/

/-- The rectangle inset by `t` and the outlines at the insets below `t` partition the pixels of
a rectangle of which `2*t` fits in both sides. -/
theorem SDL_Rect.fill_and_outlines_partition (r : SDL_Rect) (t : Int) (ht : 0 ≤ t)
    (hw : 2 * t ≤ r.w) (hh : 2 * t ≤ r.h) :
    (∀ px py, r.contains px py ↔
        ((⟨r.x + t, r.y + t, r.w - 2 * t, r.h - 2 * t⟩ : SDL_Rect).contains px py ∨
          ∃ i : Nat, i < t.toNat ∧
            (⟨r.x + i, r.y + i, r.w - 2 * i, r.h - 2 * i⟩ : SDL_Rect).outline_contains px py)) ∧
      (∀ px py (i : Nat), i < t.toNat →
        ¬ ((⟨r.x + t, r.y + t, r.w - 2 * t, r.h - 2 * t⟩ : SDL_Rect).contains px py ∧
          (⟨r.x + i, r.y + i, r.w - 2 * i, r.h - 2 * i⟩ : SDL_Rect).outline_contains px py)) ∧
      (∀ px py (i j : Nat), i < t.toNat → j < t.toNat → i ≠ j →
        ¬ ((⟨r.x + i, r.y + i, r.w - 2 * i, r.h - 2 * i⟩ : SDL_Rect).outline_contains px py ∧
          (⟨r.x + j, r.y + j, r.w - 2 * j, r.h - 2 * j⟩ : SDL_Rect).outline_contains px py)) := by
  obtain ⟨rx, ry, rw, rh⟩ := r
  simp only [] at hw hh
  have htn : (t.toNat : Int) = t := Int.toNat_of_nonneg ht
  refine ⟨?_, ?_, ?_⟩
  · intro px py
    simp only [SDL_Rect.outline_contains, SDL_Rect.contains]
    constructor
    · intro hr
      by_cases hin : rx + t ≤ px ∧ px < rx + t + (rw - 2 * t) ∧
          ry + t ≤ py ∧ py < ry + t + (rh - 2 * t)
      · exact Or.inl hin
      · right
        have hd : 0 ≤ min (min (px - rx) (rx + rw - 1 - px))
            (min (py - ry) (ry + rh - 1 - py)) := by omega
        refine ⟨(min (min (px - rx) (rx + rw - 1 - px))
          (min (py - ry) (ry + rh - 1 - py))).toNat, ?_, ?_⟩
        · omega
        · rw [Int.toNat_of_nonneg hd]
          omega
    · rintro (h | ⟨i, hi, h⟩)
      · omega
      · omega
  · intro px py i hi
    simp only [SDL_Rect.outline_contains, SDL_Rect.contains]
    omega
  · intro px py i j hi hj hij
    simp only [SDL_Rect.outline_contains, SDL_Rect.contains]
    omega

/-- C17: when `rectangle_shape::draw` draws the rectangle `r` with a non-null fill colour and
a border thickness `t ≥ 0` with `2*t ≤ min(r.w, r.h)`, it fills `{r.x+t, r.y+t, r.w-2t,
r.h-2t}` and outlines the rectangles at the insets `i = 0..t-1`; the filled area and the `t`
one-pixel outlines are pairwise disjoint and their union is exactly the pixels of `r`. -/
theorem rectangle_fill_and_border_partition {V : Type} (s : gui2.rectangle_shape V)
    (portion_to_draw draw_location : SDL_Rect) (vars : V)
    (hvisible : (s.calculate_rects portion_to_draw vars).empty = false)
    (hfill : (s.fill_color_ vars).null = false)
    (ht : 0 ≤ s.border_thickness_)
    (hfit : 2 * s.border_thickness_ ≤
      min (s.calculate_rects portion_to_draw vars).unclipped_around_viewport.w
        (s.calculate_rects portion_to_draw vars).unclipped_around_viewport.h) :
    let t := s.border_thickness_
    let r : SDL_Rect :=
      ⟨(s.calculate_rects portion_to_draw vars).unclipped_around_viewport.x + draw_location.x,
        (s.calculate_rects portion_to_draw vars).unclipped_around_viewport.y + draw_location.y,
        (s.calculate_rects portion_to_draw vars).unclipped_around_viewport.w,
        (s.calculate_rects portion_to_draw vars).unclipped_around_viewport.h⟩
    let area : SDL_Rect := ⟨r.x + t, r.y + t, r.w - 2 * t, r.h - 2 * t⟩
    let outline : Nat → SDL_Rect := fun i => ⟨r.x + i, r.y + i, r.w - 2 * i, r.h - 2 * i⟩
    (s.draw portion_to_draw draw_location vars).2 =
        [draw_call.set_color (s.fill_color_ vars), draw_call.fill area,
          draw_call.set_color (s.border_color_ vars)] ++
          (List.range t.toNat).map (fun i => draw_call.rect (outline i)) ∧
      (∀ px py, r.contains px py ↔
        (area.contains px py ∨ ∃ i, i < t.toNat ∧ (outline i).outline_contains px py)) ∧
      (∀ px py i, i < t.toNat →
        ¬ (area.contains px py ∧ (outline i).outline_contains px py)) ∧
      (∀ px py i j, i < t.toNat → j < t.toNat → i ≠ j →
        ¬ ((outline i).outline_contains px py ∧ (outline j).outline_contains px py)) := by
  intro t r area outline
  have hrw : r.w = (s.calculate_rects portion_to_draw vars).unclipped_around_viewport.w := rfl
  have hrh : r.h = (s.calculate_rects portion_to_draw vars).unclipped_around_viewport.h := rfl
  have hfw : 2 * t ≤ r.w := by rw [hrw]; exact le_trans hfit (min_le_left _ _)
  have hfh : 2 * t ≤ r.h := by rw [hrh]; exact le_trans hfit (min_le_right _ _)
  obtain ⟨h1, h2, h3⟩ := SDL_Rect.fill_and_outlines_partition r t ht hfw hfh
  refine ⟨?_, h1, h2, h3⟩
  unfold gui2.rectangle_shape.draw
  simp only [hvisible, hfill, Bool.false_eq_true, if_false, Bool.not_false, if_true,
    List.append_assoc, List.cons_append, List.nil_append]

theorem rectangle_fill_and_border_partition_witness :
    (example_filled_rectangle.calculate_rects ⟨0, 0, 330, 440⟩ ()).empty = false ∧
      (example_filled_rectangle.fill_color_ ()).null = false ∧
      (0 : Int) ≤ example_filled_rectangle.border_thickness_ ∧
      (example_filled_rectangle.draw ⟨0, 0, 330, 440⟩ ⟨100, 200, 330, 440⟩ ()).2 =
        [draw_call.set_color ⟨128, 128, 128, 255⟩, draw_call.fill ⟨112, 212, 16, 8⟩,
          draw_call.set_color ⟨255, 255, 255, 255⟩, draw_call.rect ⟨110, 210, 20, 12⟩,
          draw_call.rect ⟨111, 211, 18, 10⟩] :=
  ⟨by decide, by decide, by decide,
    (rectangle_fill_and_border_partition example_filled_rectangle ⟨0, 0, 330, 440⟩
      ⟨100, 200, 330, 440⟩ () (by decide) (by decide) (by decide) (by decide)).1.trans
      (by decide)⟩

/-! ## `canvas::parse_cfg` -/

theorem List.getLast?_getD_append {α : Type} (l₁ l₂ : List α) (d : α) :
    (l₁ ++ l₂).getLast?.getD d = l₂.getLast?.getD (l₁.getLast?.getD d) := by
  rw [List.getLast?_append]
  cases l₂.getLast? <;> simp

/-- The inner loop over a `pre_commit` tag leaves the shapes alone and keeps the depth of the
last `blur` child. -/
theorem gui2.canvas.parse_pre_commit_spec {V : Type} :
    ∀ (functions : List config.any_child) (c : gui2.canvas V),
      (c.parse_pre_commit functions).shapes_ = c.shapes_ ∧
      (c.parse_pre_commit functions).blur_depth_ =
        (functions.filterMap fun function =>
          if function.key = "blur" then some (function.cfg.attr "depth").to_unsigned
          else none).getLast?.getD c.blur_depth_ := by
  intro functions
  induction functions with
  | nil => intro c; simp [gui2.canvas.parse_pre_commit]
  | cons function functions ih =>
    intro c
    rw [gui2.canvas.parse_pre_commit]
    by_cases hb : function.key = "blur"
    · obtain ⟨h1, h2⟩ := ih { c with blur_depth_ := (function.cfg.attr "depth").to_unsigned }
      simp only [if_pos hb]
      refine ⟨h1, ?_⟩
      rw [h2, List.filterMap_cons]
      simp only [if_pos hb]
      rw [← List.singleton_append, List.getLast?_getD_append]
      simp
    · obtain ⟨h1, h2⟩ := ih c
      simp only [if_neg hb]
      refine ⟨h1, ?_⟩
      rw [h2, List.filterMap_cons]
      simp only [if_neg hb]

theorem gui2.canvas.emplace_back_eq_ok {V : Type} {c c1 : gui2.canvas V}
    {made : Except String (gui2.shape V)} (h : c.emplace_back made = .ok c1) :
    ∃ s, made = .ok s ∧ c1.shapes_ = c.shapes_ ++ [s] ∧ c1.blur_depth_ = c.blur_depth_ := by
  unfold gui2.canvas.emplace_back at h
  cases made with
  | error msg => simp at h
  | ok s =>
    simp only [Except.ok.injEq] at h
    subst h
    exact ⟨s, rfl, rfl, rfl⟩

/-- One round of the loop of `canvas::parse_cfg` that returns: a `pre_commit` child keeps the
shapes and sets the blur depth, any other child appends one shape of its kind. -/
theorem gui2.canvas.parse_child_eq_ok {V : Type} (make : gui2.shape_constructors V)
    (c c1 : gui2.canvas V) (child : config.any_child)
    (h : c.parse_child make child = .ok c1) :
    (child.key = "pre_commit" ∧ c1.shapes_ = c.shapes_ ∧
        c1.blur_depth_ = (gui2.spec_blur_depths [child]).getLast?.getD c.blur_depth_) ∨
      (child.key ≠ "pre_commit" ∧ gui2.spec_blur_depths [child] = [] ∧
        ∃ s, make.makes child s ∧ c1.shapes_ = c.shapes_ ++ [s] ∧
          c1.blur_depth_ = c.blur_depth_) := by
  unfold gui2.canvas.parse_child at h
  simp only [] at h
  split_ifs at h with h1 h2 h3 h4 h5 h6 h7
  · obtain ⟨s, hs, hsh, hbl⟩ := gui2.canvas.emplace_back_eq_ok h
    have hk : child.key ≠ "pre_commit" := by rw [h1]; decide
    exact Or.inr ⟨hk, by simp [gui2.spec_blur_depths, hk], s, Or.inl ⟨h1, hs⟩, hsh, hbl⟩
  · obtain ⟨s, hs, hsh, hbl⟩ := gui2.canvas.emplace_back_eq_ok h
    have hk : child.key ≠ "pre_commit" := by rw [h2]; decide
    exact Or.inr ⟨hk, by simp [gui2.spec_blur_depths, hk], s, Or.inr (Or.inl ⟨h2, hs⟩), hsh, hbl⟩
  · obtain ⟨s, hs, hsh, hbl⟩ := gui2.canvas.emplace_back_eq_ok h
    have hk : child.key ≠ "pre_commit" := by rw [h3]; decide
    exact Or.inr ⟨hk, by simp [gui2.spec_blur_depths, hk], s,
      Or.inr (Or.inr (Or.inl ⟨h3, hs⟩)), hsh, hbl⟩
  · obtain ⟨s, hs, hsh, hbl⟩ := gui2.canvas.emplace_back_eq_ok h
    have hk : child.key ≠ "pre_commit" := by rw [h4]; decide
    exact Or.inr ⟨hk, by simp [gui2.spec_blur_depths, hk], s,
      Or.inr (Or.inr (Or.inr (Or.inl ⟨h4, hs⟩))), hsh, hbl⟩
  · obtain ⟨s, hs, hsh, hbl⟩ := gui2.canvas.emplace_back_eq_ok h
    have hk : child.key ≠ "pre_commit" := by rw [h5]; decide
    exact Or.inr ⟨hk, by simp [gui2.spec_blur_depths, hk], s,
      Or.inr (Or.inr (Or.inr (Or.inr (Or.inl ⟨h5, hs⟩)))), hsh, hbl⟩
  · obtain ⟨s, hs, hsh, hbl⟩ := gui2.canvas.emplace_back_eq_ok h
    have hk : child.key ≠ "pre_commit" := by rw [h6]; decide
    exact Or.inr ⟨hk, by simp [gui2.spec_blur_depths, hk], s,
      Or.inr (Or.inr (Or.inr (Or.inr (Or.inr ⟨h6, hs⟩)))), hsh, hbl⟩
  · simp only [Except.ok.injEq] at h
    subst h
    obtain ⟨hsh, hbl⟩ := gui2.canvas.parse_pre_commit_spec child.cfg.all_children_range c
    refine Or.inl ⟨h7, hsh, ?_⟩
    rw [hbl]
    simp [gui2.spec_blur_depths, h7]

theorem gui2.spec_blur_depths_cons (child : config.any_child)
    (children : List config.any_child) :
    gui2.spec_blur_depths (child :: children) =
      gui2.spec_blur_depths [child] ++ gui2.spec_blur_depths children := by
  simp [gui2.spec_blur_depths]

/-- The loop of `canvas::parse_cfg`, when it returns: the shapes made of the children other
than `pre_commit` are appended in order, and the last blur depth is kept. -/
theorem gui2.canvas.parse_children_eq_ok {V : Type} (make : gui2.shape_constructors V) :
    ∀ (children : List config.any_child) (c c1 : gui2.canvas V),
      gui2.canvas.parse_children make c children = .ok c1 →
      ∃ shapes, c1.shapes_ = c.shapes_ ++ shapes ∧
        List.Forall₂ make.makes
          (children.filter fun child => child.key != "pre_commit") shapes ∧
        c1.blur_depth_ = (gui2.spec_blur_depths children).getLast?.getD c.blur_depth_ := by
  intro children
  induction children with
  | nil =>
    intro c c1 h
    simp only [gui2.canvas.parse_children, Except.ok.injEq] at h
    subst h
    exact ⟨[], by simp, by simp, by simp [gui2.spec_blur_depths]⟩
  | cons child children ih =>
    intro c c1 h
    rw [gui2.canvas.parse_children] at h
    cases hc : c.parse_child make child with
    | error msg => rw [hc] at h; simp at h
    | ok c2 =>
      rw [hc] at h
      simp only [] at h
      obtain ⟨shapes, hsh, hall, hbl⟩ := ih c2 c1 h
      rw [gui2.spec_blur_depths_cons, List.getLast?_getD_append]
      rcases gui2.canvas.parse_child_eq_ok make c c2 child hc with
        ⟨hk, hsh2, hbl2⟩ | ⟨hk, hnil, s, hs, hsh2, hbl2⟩
      · refine ⟨shapes, by rw [hsh, hsh2], ?_, by rw [hbl, hbl2]⟩
        rw [List.filter_cons_of_neg (by simp [hk])]
        exact hall
      · refine ⟨s :: shapes, by rw [hsh, hsh2]; simp, ?_, ?_⟩
        · rw [List.filter_cons_of_pos (by simp [hk])]
          exact List.Forall₂.cons hs hall
        · rw [hbl, hbl2, hnil]
          simp

theorem gui2.canvas.parse_child_returns_iff {V : Type} (make : gui2.shape_constructors V)
    (c : gui2.canvas V) (child : config.any_child) :
    (∃ c1, c.parse_child make child = .ok c1) ↔
      (child.key ≠ "pre_commit" → ∃ s, make.makes child s) := by
  constructor
  · rintro ⟨c1, h⟩ hk
    rcases gui2.canvas.parse_child_eq_ok make c c1 child h with ⟨hk2, _⟩ | ⟨_, _, s, hs, _⟩
    · exact absurd hk2 hk
    · exact ⟨s, hs⟩
  · intro h
    by_cases hk : child.key = "pre_commit"
    · refine ⟨c.parse_pre_commit child.cfg.all_children_range, ?_⟩
      unfold gui2.canvas.parse_child
      simp +decide [hk]
    · obtain ⟨s, hs⟩ := h hk
      unfold gui2.shape_constructors.makes at hs
      unfold gui2.canvas.parse_child gui2.canvas.emplace_back
      rcases hs with ⟨hk2, hm⟩ | ⟨hk2, hm⟩ | ⟨hk2, hm⟩ | ⟨hk2, hm⟩ | ⟨hk2, hm⟩ | ⟨hk2, hm⟩ <;>
        simp +decide [hk2, hm]

theorem gui2.canvas.parse_children_returns_iff {V : Type} (make : gui2.shape_constructors V) :
    ∀ (children : List config.any_child) (c : gui2.canvas V),
      ((∃ c1, gui2.canvas.parse_children make c children = .ok c1) ↔
        ∀ child ∈ children, child.key ≠ "pre_commit" → ∃ s, make.makes child s) := by
  intro children
  induction children with
  | nil => intro c; simp [gui2.canvas.parse_children]
  | cons child children ih =>
    intro c
    have hchild := gui2.canvas.parse_child_returns_iff make c child
    rw [gui2.canvas.parse_children]
    constructor
    · rintro ⟨c1, h⟩
      cases hc : c.parse_child make child with
      | error msg => rw [hc] at h; simp at h
      | ok c2 =>
        rw [hc] at h
        simp only [] at h
        intro ch hch
        rcases List.mem_cons.mp hch with rfl | hch
        · exact hchild.mp ⟨c2, hc⟩
        · exact (ih c2).mp ⟨c1, h⟩ ch hch
    · intro h
      obtain ⟨c2, hc⟩ := hchild.mpr (h child (List.mem_cons_self _ _))
      rw [hc]
      simp only []
      exact (ih c2).mpr fun ch hch => h ch (List.mem_cons_of_mem _ hch)

/-- C11: on a configuration whose children all have one of the types line, rectangle,
round_rectangle, circle, image, text or pre_commit, `canvas::parse_cfg` returns exactly when
the constructor of every child of the six shape types returns, and after it the shape list
is the previous shape list followed by one shape of the matching kind for each child of the
six shape types, in the order of the configuration; `pre_commit` children add no shape, and
the blur depth is the depth of the last `blur` child of a `pre_commit` child, when there is
one. -/
theorem parse_cfg_appends_in_order {V : Type} (make : gui2.shape_constructors V)
    (c : gui2.canvas V) (cfg : config)
    (hkeys : ∀ child ∈ cfg.all_children_range, child.key ∈
      ["line", "rectangle", "round_rectangle", "circle", "image", "text", "pre_commit"]) :
    ((∃ c1, c.parse_cfg make cfg = .ok c1) ↔
        ∀ child ∈ cfg.all_children_range,
          child.key ∈ ["line", "rectangle", "round_rectangle", "circle", "image", "text"] →
          ∃ s, make.makes child s) ∧
      (∀ c1, c.parse_cfg make cfg = .ok c1 →
        ∃ shapes, c1.shapes_ = c.shapes_ ++ shapes ∧
          List.Forall₂ make.makes
            (cfg.all_children_range.filter fun child =>
              decide (child.key ∈
                ["line", "rectangle", "round_rectangle", "circle", "image", "text"]))
            shapes ∧
          c1.blur_depth_ =
            (gui2.spec_blur_depths cfg.all_children_range).getLast?.getD c.blur_depth_) := by
  have hiff : ∀ child ∈ cfg.all_children_range,
      (child.key ∈ ["line", "rectangle", "round_rectangle", "circle", "image", "text"] ↔
        child.key ≠ "pre_commit") := by
    intro child hchild
    have hk := hkeys child hchild
    simp only [List.mem_cons, List.mem_singleton, List.not_mem_nil, or_false] at hk ⊢
    constructor
    · intro h6 hpc
      rw [hpc] at h6
      revert h6
      decide
    · intro hpc
      have hsix : (child.key = "line" ∨ child.key = "rectangle" ∨
          child.key = "round_rectangle" ∨ child.key = "circle" ∨ child.key = "image" ∨
          child.key = "text") ∨ child.key = "pre_commit" := by
        simpa only [or_assoc] using hk
      exact hsix.resolve_right hpc
  have hfilter : (cfg.all_children_range.filter fun child =>
        decide (child.key ∈
          ["line", "rectangle", "round_rectangle", "circle", "image", "text"])) =
      cfg.all_children_range.filter fun child => child.key != "pre_commit" := by
    apply List.filter_congr
    intro child hchild
    have := hiff child hchild
    by_cases hpc : child.key = "pre_commit"
    · have h6 : ¬ child.key ∈
          ["line", "rectangle", "round_rectangle", "circle", "image", "text"] :=
        fun h => (this.mp h) hpc
      simp [hpc, h6]
    · have h6 := this.mpr hpc
      simp only [h6, decide_True, bne_iff_ne, ne_eq, hpc, not_false_eq_true, decide_True]
      simp [hpc]
  constructor
  · rw [show (c.parse_cfg make cfg) =
        gui2.canvas.parse_children make c cfg.all_children_range from rfl,
      gui2.canvas.parse_children_returns_iff make cfg.all_children_range c]
    constructor
    · intro h child hchild h6
      exact h child hchild ((hiff child hchild).mp h6)
    · intro h child hchild hpc
      exact h child hchild ((hiff child hchild).mpr hpc)
  · intro c1 h
    rw [hfilter]
    exact gui2.canvas.parse_children_eq_ok make cfg.all_children_range c c1 h

theorem parse_cfg_appends_in_order_witness :
    (∀ child ∈ example_config.all_children_range, child.key ∈
        ["line", "rectangle", "round_rectangle", "circle", "image", "text", "pre_commit"]) ∧
      ∃ c1, empty_canvas.parse_cfg example_constructors example_config = .ok c1 ∧
        c1.shapes_.length = 2 ∧ c1.blur_depth_ = 3 := by
  have hkeys : ∀ child ∈ example_config.all_children_range, child.key ∈
      ["line", "rectangle", "round_rectangle", "circle", "image", "text", "pre_commit"] := by
    simp [example_config, config.all_children_range]
  have hthm := parse_cfg_appends_in_order example_constructors empty_canvas example_config hkeys
  have hmade : ∀ child ∈ example_config.all_children_range,
      child.key ∈ ["line", "rectangle", "round_rectangle", "circle", "image", "text"] →
      ∃ s, example_constructors.makes child s := by
    intro child hchild hk
    refine ⟨example_rectangle.to_shape, Or.inr (Or.inl ⟨?_, rfl⟩)⟩
    simp [example_config, config.all_children_range] at hchild
    rcases hchild with rfl | rfl | rfl
    · rfl
    · revert hk; decide
    · rfl
  obtain ⟨c1, hc1⟩ := hthm.1.mpr hmade
  obtain ⟨shapes, hsh, hall, hbl⟩ := hthm.2 c1 hc1
  refine ⟨hkeys, c1, hc1, ?_, ?_⟩
  · rw [hsh]
    show ([] ++ shapes).length = 2
    rw [List.nil_append, ← hall.length_eq]
    rfl
  · rw [hbl]
    rfl
